import Mathlib

/-!
Verification of the GraphQL MCP endpoint registry and batch execution engine
(`graphql_mcp.helpers.endpoint_registry.EndpointRegistryService` and
`graphql_mcp.helpers.combined_operations.CombinedOperationsService`).

Python dictionaries are modelled as association lists in insertion order:
updating an existing key keeps its position, adding a new key appends at the
end, and deletion removes the key.  Timestamps (`datetime.utcnow()`) are
modelled as integer seconds passed explicitly to each operation that reads
the clock.  Wall-clock-only fields that no claim observes (per-operation
`execution_time`, summary `started_at` / `completed_at` /
`total_execution_time` / `average_execution_time`) are omitted from the
embedded records.
-/

namespace GraphQLMcp

/-- Lookup in an association list (Python `dict.get`): first matching key. -/
def aget {β : Type} : List (String × β) → String → Option β
  | [], _ => none
  | (k, v) :: rest, key => if k = key then some v else aget rest key

/-- Update in an association list (Python `dict[key] = val`): replaces the
value in place when the key is present, otherwise appends at the end,
matching Python dict insertion-order semantics. -/
def aset {β : Type} : List (String × β) → String → β → List (String × β)
  | [], key, val => [(key, val)]
  | (k, v) :: rest, key, val =>
      if k = key then (key, val) :: rest else (k, v) :: aset rest key val

/-- Deletion from an association list (Python `del d[key]` / `d.pop(key, None)`). -/
def aerase {β : Type} (m : List (String × β)) (key : String) : List (String × β) :=
  m.filter (fun p => p.1 != key)

/-- Endpoint configuration (`models.core.GraphQlEndpointInfo`).  Only the
fields the registry and batch engine read are carried; the remaining
passive configuration fields are never consulted by the verified code. -/
structure GraphQlEndpointInfo where
  name : String := ""
  url : String := ""
  headers : List (String × String) := []
  deriving DecidableEq

/-- Cached schema information (`models.schema.SchemaInfo`).  The registry
only reads the `version` field; the type lists are opaque to it. -/
structure SchemaInfo where
  version : String := ""
  deriving DecidableEq

/-- The per-endpoint statistics dict created by
`EndpointRegistryService.register_endpoint` (lines 70-79).  Entries are only
ever created there, so every stats record carries all keys. -/
structure EndpointStats where
  registeredAt : Int
  lastAccessed : Option Int
  accessCount : Nat
  toolCount : Nat
  schemaVersion : String
  lastIntrospection : Option Int
  errorCount : Nat
  successCount : Nat
  deriving DecidableEq

/-- The mutable state of `EndpointRegistryService`. -/
structure RegistryState where
  endpoints : List (String × GraphQlEndpointInfo)
  endpointSchemas : List (String × SchemaInfo)
  toolToEndpoint : List (String × String)
  endpointToTools : List (String × List String)
  endpointStats : List (String × EndpointStats)
  lastUpdated : List (String × Int)
  deriving DecidableEq

/-- Freshly constructed registry (`EndpointRegistryService.__init__`). -/
def RegistryState.empty : RegistryState :=
  ⟨[], [], [], [], [], []⟩

/-- Tool set of an endpoint (`self._endpoint_to_tools.get(name, set())`;
the `defaultdict(set)` default).  Sets are modelled as lists observed only
through membership and length. -/
def etGet (s : RegistryState) (endpointName : String) : List String :=
  (aget s.endpointToTools endpointName).getD []

/-- Python `set.add`: no-op when the element is present. -/
def listAdd (l : List String) (x : String) : List String :=
  if l.contains x then l else l ++ [x]

/-- Python `set.discard`. -/
def listDiscard (l : List String) (x : String) : List String :=
  l.filter (fun t => t != x)

/-- The fresh stats dict of `register_endpoint` lines 70-79:
`schema_version` is the schema's version when one is supplied and the empty
string otherwise; every counter starts at zero. -/
def freshStats (now : Int) (schemaInfo : Option SchemaInfo) : EndpointStats :=
  { registeredAt := now
    lastAccessed := none
    accessCount := 0
    toolCount := 0
    schemaVersion := match schemaInfo with
                     | some sch => sch.version
                     | none => ""
    lastIntrospection := none
    errorCount := 0
    successCount := 0 }

/-- Embeds `EndpointRegistryService.register_endpoint` (lines 43-88): stores the
endpoint record, stores the schema when provided, and initializes a fresh
stats block; returns `True`. -/
def register_endpoint (now : Int) (info : GraphQlEndpointInfo)
    (schemaInfo : Option SchemaInfo) (s : RegistryState) : Bool × RegistryState :=
  let endpointName := info.name
  let s1 := { s with endpoints := aset s.endpoints endpointName info }
  let s2 := match schemaInfo with
            | some sch => { s1 with endpointSchemas := aset s1.endpointSchemas endpointName sch }
            | none => s1
  (true, { s2 with endpointStats := aset s2.endpointStats endpointName (freshStats now schemaInfo)
                   lastUpdated := aset s2.lastUpdated endpointName now })

/-- Embeds `EndpointRegistryService._remove_tool` (lines 192-211): looks up the
tool's endpoint, discards the tool from that endpoint's set, recomputes
`tool_count`, and pops the tool from the reverse map. -/
def remove_tool (s : RegistryState) (toolName : String) : RegistryState :=
  match aget s.toolToEndpoint toolName with
  | some endpointName =>
      let tools := listDiscard (etGet s endpointName) toolName
      let s1 := { s with endpointToTools := aset s.endpointToTools endpointName tools }
      let s2 := match aget s1.endpointStats endpointName with
                | some st =>
                    { s1 with endpointStats :=
                        (aset s1.endpointStats endpointName { st with toolCount := tools.length }) }
                | none => s1
      { s2 with toolToEndpoint := aerase s2.toolToEndpoint toolName }
  | none => { s with toolToEndpoint := aerase s.toolToEndpoint toolName }

/-- Embeds `EndpointRegistryService.unregister_endpoint` (lines 90-123): fails when
the endpoint is unknown; otherwise removes every tool in the endpoint's set
(snapshot taken first), then deletes the endpoint's record, schema, stats,
timestamp and tool-set entries. -/
def unregister_endpoint (endpointName : String) (s : RegistryState) :
    Bool × RegistryState :=
  if (aget s.endpoints endpointName).isNone then (false, s)
  else
    let toolsToRemove := etGet s endpointName
    let s1 := toolsToRemove.foldl remove_tool s
    (true, { s1 with
      endpoints := aerase s1.endpoints endpointName
      endpointSchemas := aerase s1.endpointSchemas endpointName
      endpointStats := aerase s1.endpointStats endpointName
      lastUpdated := aerase s1.lastUpdated endpointName
      endpointToTools := aerase s1.endpointToTools endpointName })

/-- Embeds `EndpointRegistryService.register_tool` (lines 167-190): fails when the
endpoint is unknown; otherwise stores the tool→endpoint mapping, adds the
tool to the endpoint's set, and recomputes `tool_count`. -/
def register_tool (toolName endpointName : String) (s : RegistryState) :
    Bool × RegistryState :=
  if (aget s.endpoints endpointName).isNone then (false, s)
  else
    let s1 := { s with toolToEndpoint := aset s.toolToEndpoint toolName endpointName }
    let tools := listAdd (etGet s1 endpointName) toolName
    let s2 := { s1 with endpointToTools := aset s1.endpointToTools endpointName tools }
    let s3 := match aget s2.endpointStats endpointName with
              | some st =>
                  { s2 with endpointStats :=
                      (aset s2.endpointStats endpointName { st with toolCount := tools.length }) }
              | none => s2
    (true, s3)

/-- The stats mutation of `record_endpoint_access` lines 245-251: sets
`last_accessed`, increments `access_count`, and increments exactly one of
`success_count` and `error_count`. -/
def bumpStats (now : Int) (success : Bool) (st : EndpointStats) : EndpointStats :=
  { st with
    lastAccessed := some now
    accessCount := st.accessCount + 1
    successCount := if success then st.successCount + 1 else st.successCount
    errorCount := if success then st.errorCount else st.errorCount + 1 }

/-- Embeds `EndpointRegistryService.record_endpoint_access` (lines 236-251): no-op
when the endpoint has no stats entry; otherwise applies `bumpStats`. -/
def record_endpoint_access (now : Int) (endpointName : String) (success : Bool)
    (s : RegistryState) : RegistryState :=
  match aget s.endpointStats endpointName with
  | none => s
  | some st =>
      { s with endpointStats := aset s.endpointStats endpointName (bumpStats now success st) }

/-- Embeds `EndpointRegistryService.update_endpoint_schema` (lines 140-165). -/
def update_endpoint_schema (now : Int) (endpointName : String) (sch : SchemaInfo)
    (s : RegistryState) : Bool × RegistryState :=
  if (aget s.endpoints endpointName).isNone then (false, s)
  else
    let s1 := { s with
      endpointSchemas := aset s.endpointSchemas endpointName sch
      lastUpdated := aset s.lastUpdated endpointName now }
    match aget s1.endpointStats endpointName with
    | some st =>
        (true, { s1 with endpointStats :=
            (aset s1.endpointStats endpointName
              { st with schemaVersion := sch.version, lastIntrospection := some now }) })
    | none => (true, s1)

/-- Embeds `EndpointRegistryService.get_endpoint_schema` (lines 135-138). -/
def get_endpoint_schema (s : RegistryState) (endpointName : String) : Option SchemaInfo :=
  aget s.endpointSchemas endpointName

/-- Staleness test of `cleanup_stale_endpoints` (lines 274-282):
`(now - last_accessed).total_seconds() / 3600 > max_age_hours`, with
`registered_at` as the reference when the endpoint was never accessed.
Over exact arithmetic on seconds the float comparison is
`now - reference > max_age_hours * 3600`. -/
def staleStats (now maxAgeHours : Int) (st : EndpointStats) : Bool :=
  let reference := match st.lastAccessed with
                   | some t => t
                   | none => st.registeredAt
  decide (now - reference > maxAgeHours * 3600)

/-- Embeds the loop body of
`EndpointRegistryService.cleanup_stale_endpoints` (lines 271-289) under the
INTENDED locking: collects the stale endpoint names from the stats table,
unregisters each, and returns how many names were collected.  This is what
the method computes if the `unregister_endpoint` calls it awaits can
acquire the lock; the method as actually written deadlocks instead
whenever the stale list is non-empty — see
`cleanup_stale_endpoints_locked`. -/
def cleanup_stale_endpoints (now maxAgeHours : Int) (s : RegistryState) :
    Nat × RegistryState :=
  let staleEndpoints :=
    (s.endpointStats.filter (fun p => staleStats now maxAgeHours p.2)).map Prod.fst
  let s' := staleEndpoints.foldl (fun st n => (unregister_endpoint n st).2) s
  (staleEndpoints.length, s')

/-- Embeds the `cleanup_stale_endpoints` method (lines 268-289) together
with its lock discipline.  The body runs holding `self._lock` (line 270),
and each `await self.unregister_endpoint(...)` of the removal loop
(line 286) re-acquires the same non-reentrant `asyncio.Lock` (line 100).
When the stale list is empty the loop never runs and the method returns
`0` with the registry unchanged; when it is non-empty the first
`unregister_endpoint` call blocks forever on the lock it already holds, so
the method never returns — modelled as `none`. -/
def cleanup_stale_endpoints_locked (now maxAgeHours : Int) (s : RegistryState) :
    Option (Nat × RegistryState) :=
  match (s.endpointStats.filter (fun p => staleStats now maxAgeHours p.2)).map
      Prod.fst with
  | [] => some (0, s)
  | _ :: _ => none

/-- Registry states reachable from a fresh service by the public operations
(plus `_remove_tool`, which `unregister_endpoint` uses internally). -/
inductive Reachable : RegistryState → Prop where
  | start : Reachable RegistryState.empty
  | reg {s} (now : Int) (info : GraphQlEndpointInfo) (sch : Option SchemaInfo) :
      Reachable s → Reachable (register_endpoint now info sch s).2
  | unreg {s} (endpointName : String) :
      Reachable s → Reachable (unregister_endpoint endpointName s).2
  | regTool {s} (toolName endpointName : String) :
      Reachable s → Reachable (register_tool toolName endpointName s).2
  | remTool {s} (toolName : String) :
      Reachable s → Reachable (remove_tool s toolName)
  | record {s} (now : Int) (endpointName : String) (success : Bool) :
      Reachable s → Reachable (record_endpoint_access now endpointName success s)
  | updSchema {s} (now : Int) (endpointName : String) (sch : SchemaInfo) :
      Reachable s → Reachable (update_endpoint_schema now endpointName sch s).2
  | sweep {s} (now maxAgeHours : Int) :
      Reachable s → Reachable (cleanup_stale_endpoints now maxAgeHours s).2

/-! ### Batch execution engine (`CombinedOperationsService`) -/

/-- A GraphQL error of the gateway response (`models.core.GraphQlError`);
the batch engine only reads `message`. -/
structure GqlError where
  message : String
  deriving DecidableEq

/-- Behavior of one `http_client.execute_query` call, the external gateway
contract.  `returns` is a normal `(data, errors, metadata)` triple (data is
opaque to the engine and kept as an optional string); `raises` is an
exception caught by the inner `try` of `_execute_single_operation`
(lines 204-217); `escapes` is a fault that propagates out of
`_execute_single_operation` and is handled by its caller (sequential
`except`, lines 107-118, or the `asyncio.gather` conversion, lines 85-96). -/
inductive GwBehavior where
  | returns (data : Option String) (errors : List GqlError)
  | raises (msg : String)
  | escapes (msg : String)
  deriving DecidableEq

/-- One operation dict of the batch request; `none` models an absent key,
so `op.get(key, default)` is `Option.getD`. -/
structure Operation where
  name : Option String := none
  endpoint : Option String := none
  query : Option String := none
  «variables» : Option (List (String × String)) := none
  deriving DecidableEq

instance : Inhabited Operation := ⟨{}⟩

/-- Embeds `models.batch.BatchOperationResult`, restricted to the fields this code
path writes or defaults (timing fields omitted; `was_retried`,
`retry_attempts`, `status_code`, `headers` keep their defaults and are
never touched by the engine). -/
structure BatchOperationResult where
  name : String := ""
  success : Bool := false
  data : Option String := none
  error : Option String := none
  index : Nat := 0
  endpoint : String := ""
  query : Option String := none
  «variables» : Option (List (String × String)) := none
  deriving DecidableEq

instance : Inhabited BatchOperationResult := ⟨{}⟩

/-- Embeds `models.base.ExecutionMode`. -/
inductive ExecutionMode where
  | sequential
  | parallel
  deriving DecidableEq

/-- Mode resolution of `execute_batch_operations_async` line 77:
`ExecutionMode(execution_mode) if execution_mode in
ExecutionMode.__members__.values() else ExecutionMode.SEQUENTIAL`.
The members are exactly `"sequential"` and `"parallel"`, so every other
string resolves to sequential. -/
def ExecutionMode.fromString (s : String) : ExecutionMode :=
  if s = "parallel" then .parallel else .sequential

/-- Embeds `models.batch.BatchSummary` (timing fields omitted; every field kept
carries its pydantic default). -/
structure BatchSummary where
  totalOperations : Nat := 0
  successfulOperations : Nat := 0
  failedOperations : Nat := 0
  executionMode : ExecutionMode := .sequential
  continueOnError : Bool := true
  deriving DecidableEq

/-- Embeds `models.batch.BatchExecutionResponse` (the `warnings` and `metadata`
fields keep their empty defaults in this code path and are omitted). -/
structure BatchExecutionResponse where
  results : List BatchOperationResult := []
  summary : BatchSummary := {}
  errors : List String := []
  deriving DecidableEq

/-- Embeds `operation.get("name", f"operation_X")` with `X` the index. -/
def opNameOf (op : Operation) (index : Nat) : String :=
  op.name.getD ("operation_" ++ toString index)

/-- Embeds the join `"; ".join([e.message for e in errors])`. -/
def joinMessages (errors : List GqlError) : String :=
  String.intercalate "; " (errors.map (fun e => e.message))

/-- Embeds `CombinedOperationsService._execute_single_operation` (lines 149-217).
`Except.error` is a fault escaping the method; the `.ok` triple is the
produced result, the registry state after the method (its only state effect
is `record_endpoint_access`, line 190), and whether the gateway
(`http_client.execute_query`) was invoked. -/
def execute_single_operation (now : Int) (reg : RegistryState) (gw : GwBehavior)
    (op : Operation) (index : Nat) :
    Except String (BatchOperationResult × RegistryState × Bool) :=
  let endpointName := op.endpoint.getD ""
  let query := op.query.getD ""
  let vars := op.variables.getD []
  let name := opNameOf op index
  match aget reg.endpoints endpointName with
  | none =>
      .ok ({ name := name
             success := false
             error := some ("Endpoint not found: " ++ endpointName)
             index := index
             endpoint := endpointName
             query := some query
             «variables» := some vars }, reg, false)
  | some _ =>
      match gw with
      | .escapes msg => .error msg
      | .raises msg =>
          .ok ({ name := name
                 success := false
                 error := some msg
                 index := index
                 endpoint := endpointName
                 query := some query
                 «variables» := some vars }, reg, true)
      | .returns data errors =>
          let reg' := record_endpoint_access now endpointName errors.isEmpty reg
          .ok ({ name := name
                 success := errors.isEmpty
                 data := data
                 error := if errors.isEmpty then none else some (joinMessages errors)
                 index := index
                 endpoint := endpointName
                 query := some query
                 «variables» := some vars }, reg', true)

/-- The failed result the caller builds from an escaped fault (identical at
lines 90-96 and 108-114: no `query`/`variables`/`data` are set there). -/
def escapeResult (op : Operation) (index : Nat) (msg : String) : BatchOperationResult :=
  { name := opNameOf op index
    success := false
    error := some msg
    index := index
    endpoint := op.endpoint.getD "" }

/-- The result operation `index` contributes to the batch: the result of
`_execute_single_operation`, with the caller's escaped-fault conversion
applied. -/
def singleResult (now : Int) (reg : RegistryState) (gw : GwBehavior)
    (op : Operation) (index : Nat) : BatchOperationResult :=
  match execute_single_operation now reg gw op index with
  | .ok (r, _, _) => r
  | .error msg => escapeResult op index msg

/-- Sequential branch of `execute_batch_operations_async` (lines 97-118):
operations run in order, each escaped fault is converted to a failed
result, and execution stops after the first failed result when
`continue_on_error` is false. -/
def runSequential (now : Int) (gw : Nat → GwBehavior) (continueOnError : Bool) :
    RegistryState → Nat → List Operation →
    List BatchOperationResult × RegistryState
  | reg, _, [] => ([], reg)
  | reg, i, op :: rest =>
    match execute_single_operation now reg (gw i) op i with
    | .ok (r, reg', _) =>
        if !r.success && !continueOnError then ([r], reg')
        else
          let pr := runSequential now gw continueOnError reg' (i + 1) rest
          (r :: pr.1, pr.2)
    | .error msg =>
        let r := escapeResult op i msg
        if !continueOnError then ([r], reg)
        else
          let pr := runSequential now gw continueOnError reg (i + 1) rest
          (r :: pr.1, pr.2)

/-- Parallel branch of `execute_batch_operations_async` (lines 79-96):
`asyncio.gather` returns one entry per task in task order, and entries that
are exceptions are converted to failed results.  An operation's result
depends on the shared registry only through the endpoint table, which no
batch operation mutates, and the statistics increments of distinct
operations commute, so threading the state in index order is a faithful
linearization of the concurrent execution. -/
def runParallel (now : Int) (gw : Nat → GwBehavior) :
    RegistryState → Nat → List Operation →
    List BatchOperationResult × RegistryState
  | reg, _, [] => ([], reg)
  | reg, i, op :: rest =>
    match execute_single_operation now reg (gw i) op i with
    | .ok (r, reg', _) =>
        let pr := runParallel now gw reg' (i + 1) rest
        (r :: pr.1, pr.2)
    | .error msg =>
        let pr := runParallel now gw reg (i + 1) rest
        (escapeResult op i msg :: pr.1, pr.2)

/-- Embeds `CombinedOperationsService.execute_batch_operations_async`
(lines 62-147).  `gw` gives the gateway behavior of each operation index;
`outerFault` models an exception raised inside the outer `try` but outside
the per-operation handling (caught at lines 141-147); `timeout_seconds` is
only forwarded to the gateway and is absorbed by `gw`. -/
def execute_batch_operations_async (now : Int) (reg : RegistryState)
    (gw : Nat → GwBehavior) (operations : List Operation)
    (executionMode : String) (continueOnError : Bool)
    (outerFault : Option String) : BatchExecutionResponse × RegistryState :=
  let mode := ExecutionMode.fromString executionMode
  let pr := match mode with
            | .parallel => runParallel now gw reg 0 operations
            | .sequential => runSequential now gw continueOnError reg 0 operations
  match outerFault with
  | some msg =>
      ({ results := [], summary := {}, errors := [msg] }, pr.2)
  | none =>
      let successfulOps := (pr.1.filter (fun r => r.success)).length
      let failedOps := pr.1.length - successfulOps
      ({ results := pr.1
         summary := { totalOperations := operations.length
                      successfulOperations := successfulOps
                      failedOperations := failedOps
                      executionMode := mode
                      continueOnError := continueOnError }
         errors := [] }, pr.2)

/-! ### Association-list laws -/

/-- Key list of an association list. -/
def akeys {β : Type} (m : List (String × β)) : List String :=
  m.map Prod.fst

theorem akeys_cons {β : Type} (p : String × β) (rest : List (String × β)) :
    akeys (p :: rest) = p.1 :: akeys rest := rfl

theorem aget_aset {β : Type} (m : List (String × β)) (k : String) (v : β)
    (k' : String) :
    aget (aset m k v) k' = if k = k' then some v else aget m k' := by
  induction m with
  | nil => simp [aget, aset]
  | cons p rest ih =>
    obtain ⟨k₀, v₀⟩ := p
    by_cases h₀ : k₀ = k
    · subst h₀
      by_cases h₁ : k₀ = k'
      · subst h₁; simp [aget, aset]
      · simp [aget, aset, h₁]
    · by_cases h₁ : k₀ = k'
      · subst h₁
        have : ¬k = k₀ := fun h => h₀ h.symm
        simp [aget, aset, h₀, this]
      · simp [aget, aset, h₀, h₁, ih]

theorem aerase_cons {β : Type} (k₀ : String) (v₀ : β) (rest : List (String × β))
    (k : String) :
    aerase ((k₀, v₀) :: rest) k =
      if k₀ = k then aerase rest k else (k₀, v₀) :: aerase rest k := by
  by_cases h : k₀ = k <;> simp [aerase, List.filter_cons, h]

theorem aget_aerase {β : Type} (m : List (String × β)) (k k' : String) :
    aget (aerase m k) k' = if k = k' then none else aget m k' := by
  induction m with
  | nil => simp [aget, aerase]
  | cons p rest ih =>
    obtain ⟨k₀, v₀⟩ := p
    rw [aerase_cons]
    by_cases h₀ : k₀ = k
    · subst h₀
      rw [if_pos rfl, ih]
      by_cases h₁ : k₀ = k'
      · subst h₁; simp
      · simp [aget, h₁]
    · rw [if_neg h₀]
      by_cases h₁ : k₀ = k'
      · subst h₁
        have h₂ : ¬k = k₀ := fun h => h₀ h.symm
        simp [aget, h₂]
      · simp [aget, h₁, ih]

theorem akeys_aset {β : Type} (m : List (String × β)) (k : String) (v : β) :
    akeys (aset m k v) = if (aget m k).isSome then akeys m else akeys m ++ [k] := by
  induction m with
  | nil => simp [akeys, aset, aget]
  | cons p rest ih =>
    obtain ⟨k₀, v₀⟩ := p
    by_cases h₀ : k₀ = k
    · subst h₀; simp [akeys, aset, aget]
    · simp [akeys, aset, aget, h₀] at ih ⊢
      rw [ih]
      by_cases h₁ : (aget rest k).isSome <;> simp [h₁]

theorem mem_akeys_iff_aget_isSome {β : Type} (m : List (String × β)) (k : String) :
    k ∈ akeys m ↔ (aget m k).isSome := by
  induction m with
  | nil => simp [aget, akeys]
  | cons p rest ih =>
    obtain ⟨k₀, v₀⟩ := p
    by_cases h₀ : k₀ = k
    · subst h₀; simp [aget, akeys]
    · have h₁ : ¬k = k₀ := fun h => h₀ h.symm
      rw [akeys_cons, List.mem_cons, aget, if_neg h₀]
      simp [h₁, ih]

theorem nodup_akeys_aset {β : Type} {m : List (String × β)} (k : String) (v : β)
    (h : (akeys m).Nodup) : (akeys (aset m k v)).Nodup := by
  rw [akeys_aset]
  by_cases h₁ : (aget m k).isSome
  · simpa [h₁] using h
  · have hk : k ∉ akeys m := by
      rw [mem_akeys_iff_aget_isSome]
      exact fun hs => h₁ hs
    rw [if_neg h₁]
    refine h.append (List.nodup_singleton k) ?_
    intro a ha hb
    rw [List.mem_singleton] at hb
    exact hk (hb ▸ ha)

theorem nodup_akeys_aerase {β : Type} {m : List (String × β)} (k : String)
    (h : (akeys m).Nodup) : (akeys (aerase m k)).Nodup := by
  have hsub : List.Sublist (akeys (aerase m k)) (akeys m) :=
    (List.filter_sublist m).map Prod.fst
  exact h.sublist hsub

theorem aget_eq_some_of_mem_nodup {β : Type} {m : List (String × β)}
    {k : String} {v : β} (hnd : (akeys m).Nodup) (hmem : (k, v) ∈ m) :
    aget m k = some v := by
  induction m with
  | nil => simp at hmem
  | cons p rest ih =>
    obtain ⟨k₀, v₀⟩ := p
    rw [akeys_cons] at hnd
    rcases List.mem_cons.1 hmem with h₁ | h₁
    · obtain ⟨hk, hv⟩ := Prod.mk.injEq .. ▸ h₁
      subst hk; subst hv
      simp [aget]
    · have hk₀ : k₀ ≠ k := by
        intro h
        subst h
        have hm : (k₀, v).1 ∈ akeys rest := List.mem_map_of_mem Prod.fst h₁
        exact (List.nodup_cons.1 hnd).1 hm
      simp only [aget, if_neg hk₀]
      exact ih (List.nodup_cons.1 hnd).2 h₁

theorem mem_of_aget_eq_some {β : Type} {m : List (String × β)}
    {k : String} {v : β} (h : aget m k = some v) : (k, v) ∈ m := by
  induction m with
  | nil => simp [aget] at h
  | cons p rest ih =>
    obtain ⟨k₀, v₀⟩ := p
    by_cases h₀ : k₀ = k
    · subst h₀
      simp [aget] at h
      simp [h]
    · simp [aget, h₀] at h
      simp [ih h]

theorem length_aerase_of_aget_isSome {β : Type} {m : List (String × β)}
    {k : String} (hnd : (akeys m).Nodup) (h : (aget m k).isSome) :
    (aerase m k).length + 1 = m.length := by
  induction m with
  | nil => simp [aget] at h
  | cons p rest ih =>
    obtain ⟨k₀, v₀⟩ := p
    rw [akeys_cons] at hnd
    rw [aerase_cons]
    by_cases h₀ : k₀ = k
    · subst h₀
      have hk : k₀ ∉ akeys rest := (List.nodup_cons.1 hnd).1
      have heq : aerase rest k₀ = rest := by
        rw [aerase]
        apply List.filter_eq_self.2
        intro p hp
        simp only [bne_iff_ne, ne_eq, decide_eq_true_eq]
        intro hh
        have hm : p.1 ∈ akeys rest := List.mem_map_of_mem Prod.fst hp
        rw [hh] at hm
        exact hk hm
      simp [heq]
    · have h' : (aget rest k).isSome := by simpa [aget, h₀] using h
      have := ih (List.nodup_cons.1 hnd).2 h'
      simp only [if_neg h₀, List.length_cons]
      omega

theorem aget_isNone_iff_not_mem_akeys {β : Type} (m : List (String × β))
    (k : String) : aget m k = none ↔ k ∉ akeys m := by
  cases h : aget m k <;> simp [mem_akeys_iff_aget_isSome, h]


/-! ### Effect lemmas for the registry operations -/

theorem mem_listDiscard {l : List String} {x y : String} :
    x ∈ listDiscard l y ↔ x ∈ l ∧ x ≠ y := by
  simp [listDiscard, List.mem_filter]

theorem mem_listAdd {l : List String} {x y : String} :
    x ∈ listAdd l y ↔ x ∈ l ∨ x = y := by
  unfold listAdd
  by_cases hy : y ∈ l
  · rw [if_pos (by simpa using hy)]
    constructor
    · exact fun hx => Or.inl hx
    · rintro (hx | rfl)
      · exact hx
      · exact hy
  · rw [if_neg (by simpa using hy)]
    simp [List.mem_append]

theorem register_endpoint_state (now : Int) (info : GraphQlEndpointInfo)
    (sch : Option SchemaInfo) (s : RegistryState) :
    (register_endpoint now info sch s).2 =
      { endpoints := aset s.endpoints info.name info
        endpointSchemas := match sch with
                           | some x => aset s.endpointSchemas info.name x
                           | none => s.endpointSchemas
        toolToEndpoint := s.toolToEndpoint
        endpointToTools := s.endpointToTools
        endpointStats := aset s.endpointStats info.name (freshStats now sch)
        lastUpdated := aset s.lastUpdated info.name now } := by
  cases sch <;> rfl

theorem record_endpoint_access_state (now : Int) (e : String) (b : Bool)
    (s : RegistryState) :
    record_endpoint_access now e b s =
      match aget s.endpointStats e with
      | none => s
      | some st => { s with endpointStats := aset s.endpointStats e (bumpStats now b st) } := by
  unfold record_endpoint_access
  cases h : aget s.endpointStats e <;> rfl

theorem remove_tool_endpoints (s : RegistryState) (t : String) :
    (remove_tool s t).endpoints = s.endpoints := by
  unfold remove_tool
  cases h₁ : aget s.toolToEndpoint t with
  | none => rfl
  | some e => cases h₂ : aget s.endpointStats e <;> simp [h₂]

theorem remove_tool_endpointSchemas (s : RegistryState) (t : String) :
    (remove_tool s t).endpointSchemas = s.endpointSchemas := by
  unfold remove_tool
  cases h₁ : aget s.toolToEndpoint t with
  | none => rfl
  | some e => cases h₂ : aget s.endpointStats e <;> simp [h₂]

theorem remove_tool_lastUpdated (s : RegistryState) (t : String) :
    (remove_tool s t).lastUpdated = s.lastUpdated := by
  unfold remove_tool
  cases h₁ : aget s.toolToEndpoint t with
  | none => rfl
  | some e => cases h₂ : aget s.endpointStats e <;> simp [h₂]

theorem remove_tool_toolToEndpoint (s : RegistryState) (t : String) :
    (remove_tool s t).toolToEndpoint = aerase s.toolToEndpoint t := by
  unfold remove_tool
  cases h₁ : aget s.toolToEndpoint t with
  | none => rfl
  | some e => cases h₂ : aget s.endpointStats e <;> simp [h₂]

theorem remove_tool_etGet_of_none {s : RegistryState} {t : String}
    (h : aget s.toolToEndpoint t = none) (e' : String) :
    etGet (remove_tool s t) e' = etGet s e' := by
  unfold remove_tool
  rw [h]
  rfl

theorem remove_tool_etGet_of_some {s : RegistryState} {t e : String}
    (h : aget s.toolToEndpoint t = some e) (e' : String) :
    etGet (remove_tool s t) e' =
      if e = e' then listDiscard (etGet s e) t else etGet s e' := by
  unfold remove_tool
  rw [h]
  cases h₂ : aget s.endpointStats e <;>
    simp [h₂, etGet, aget_aset] <;>
    by_cases h₃ : e = e' <;>
    simp [h₃]

theorem remove_tool_etGet_subset (s : RegistryState) (t e' : String) :
    ∀ x, x ∈ etGet (remove_tool s t) e' → x ∈ etGet s e' := by
  intro x hx
  cases h₁ : aget s.toolToEndpoint t with
  | none => rwa [remove_tool_etGet_of_none h₁] at hx
  | some e =>
    rw [remove_tool_etGet_of_some h₁] at hx
    by_cases h₃ : e = e'
    · subst h₃
      rw [if_pos rfl] at hx
      exact (mem_listDiscard.1 hx).1
    · rwa [if_neg h₃] at hx

/-- The stats table of `remove_tool`: the key set is unchanged and every
entry keeps its counters (only `tool_count` is recomputed). -/
theorem remove_tool_stats (s : RegistryState) (t e' : String) :
    (aget (remove_tool s t).endpointStats e' = aget s.endpointStats e')
    ∨ ∃ st : EndpointStats, aget s.endpointStats e' = some st ∧
        aget (remove_tool s t).endpointStats e' = some { st with toolCount := (listDiscard (etGet s ((aget s.toolToEndpoint t).getD "")) t).length } := by
  unfold remove_tool
  cases h₁ : aget s.toolToEndpoint t with
  | none => left; rfl
  | some e =>
    cases h₂ : aget s.endpointStats e with
    | none => left; simp [h₂]
    | some st =>
      by_cases h₃ : e = e'
      · subst h₃
        right
        exact ⟨st, h₂, by simp [h₂, aget_aset]⟩
      · left
        simp [h₂, aget_aset, h₃]

theorem remove_tool_stats_isSome (s : RegistryState) (t e' : String) :
    (aget (remove_tool s t).endpointStats e').isSome
      = (aget s.endpointStats e').isSome := by
  rcases remove_tool_stats s t e' with h | ⟨st, h₁, h₂⟩
  · rw [h]
  · rw [h₁, h₂]
    rfl

theorem remove_tool_akeys_stats (s : RegistryState) (t : String) :
    akeys (remove_tool s t).endpointStats = akeys s.endpointStats := by
  unfold remove_tool
  cases h₁ : aget s.toolToEndpoint t with
  | none => rfl
  | some e =>
    cases h₂ : aget s.endpointStats e with
    | none => simp [h₂]
    | some st =>
      simp only [h₂]
      rw [akeys_aset]
      simp [h₂]

theorem register_tool_of_none {s : RegistryState} {t e : String}
    (h : aget s.endpoints e = none) : register_tool t e s = (false, s) := by
  simp [register_tool, h]

theorem register_tool_endpoints (t e : String) (s : RegistryState) :
    (register_tool t e s).2.endpoints = s.endpoints := by
  unfold register_tool
  by_cases h : (aget s.endpoints e).isNone
  · simp [h]
  · simp only [if_neg h]
    cases h₂ : aget s.endpointStats e <;> simp [h₂]

theorem register_tool_endpointSchemas (t e : String) (s : RegistryState) :
    (register_tool t e s).2.endpointSchemas = s.endpointSchemas := by
  unfold register_tool
  by_cases h : (aget s.endpoints e).isNone
  · simp [h]
  · simp only [if_neg h]
    cases h₂ : aget s.endpointStats e <;> simp [h₂]

theorem register_tool_tte {s : RegistryState} {t e : String} {info : GraphQlEndpointInfo}
    (h : aget s.endpoints e = some info) :
    (register_tool t e s).2.toolToEndpoint = aset s.toolToEndpoint t e := by
  unfold register_tool
  rw [h]
  simp only [Option.isNone_some, Bool.false_eq_true, if_false]
  cases h₂ : aget s.endpointStats e <;> simp [h₂]

theorem register_tool_etGet {s : RegistryState} {t e : String} {info : GraphQlEndpointInfo}
    (h : aget s.endpoints e = some info) (e' : String) :
    etGet (register_tool t e s).2 e' =
      if e = e' then listAdd (etGet s e) t else etGet s e' := by
  unfold register_tool
  rw [h]
  simp only [Option.isNone_some, Bool.false_eq_true, if_false]
  cases h₂ : aget s.endpointStats e <;>
    simp [h₂, etGet, aget_aset] <;>
    by_cases h₃ : e = e' <;>
    simp [h₃]

theorem register_tool_stats (s : RegistryState) (t e e' : String) :
    (aget (register_tool t e s).2.endpointStats e' = aget s.endpointStats e')
    ∨ ∃ st : EndpointStats, aget s.endpointStats e' = some st ∧
        ∃ n : Nat, aget (register_tool t e s).2.endpointStats e'
          = some { st with toolCount := n } := by
  unfold register_tool
  by_cases h : (aget s.endpoints e).isNone
  · simp [h]
  · simp only [if_neg h]
    cases h₂ : aget s.endpointStats e with
    | none => left; simp [h₂]
    | some st =>
      by_cases h₃ : e = e'
      · subst h₃
        right
        refine ⟨st, h₂, (listAdd (etGet s e) t).length, ?_⟩
        simp [h₂, aget_aset, etGet]
      · left
        simp [h₂, aget_aset, h₃]

theorem update_endpoint_schema_of_none {s : RegistryState} {n : String}
    {sch : SchemaInfo} {now : Int} (h : aget s.endpoints n = none) :
    update_endpoint_schema now n sch s = (false, s) := by
  simp [update_endpoint_schema, h]

theorem update_endpoint_schema_endpoints (now : Int) (n : String)
    (sch : SchemaInfo) (s : RegistryState) :
    (update_endpoint_schema now n sch s).2.endpoints = s.endpoints := by
  unfold update_endpoint_schema
  by_cases h : (aget s.endpoints n).isNone
  · simp [h]
  · simp only [if_neg h]
    cases h₂ : aget s.endpointStats n <;> simp [h₂]

theorem update_endpoint_schema_tte (now : Int) (n : String)
    (sch : SchemaInfo) (s : RegistryState) :
    (update_endpoint_schema now n sch s).2.toolToEndpoint = s.toolToEndpoint := by
  unfold update_endpoint_schema
  by_cases h : (aget s.endpoints n).isNone
  · simp [h]
  · simp only [if_neg h]
    cases h₂ : aget s.endpointStats n <;> simp [h₂]

theorem update_endpoint_schema_ett (now : Int) (n : String)
    (sch : SchemaInfo) (s : RegistryState) :
    (update_endpoint_schema now n sch s).2.endpointToTools = s.endpointToTools := by
  unfold update_endpoint_schema
  by_cases h : (aget s.endpoints n).isNone
  · simp [h]
  · simp only [if_neg h]
    cases h₂ : aget s.endpointStats n <;> simp [h₂]

theorem update_endpoint_schema_stats (now : Int) (n : String)
    (sch : SchemaInfo) (s : RegistryState) (e' : String) :
    (aget (update_endpoint_schema now n sch s).2.endpointStats e'
        = aget s.endpointStats e')
    ∨ ∃ st : EndpointStats, aget s.endpointStats e' = some st ∧
        aget (update_endpoint_schema now n sch s).2.endpointStats e'
          = some { st with schemaVersion := sch.version, lastIntrospection := some now } := by
  unfold update_endpoint_schema
  by_cases h : (aget s.endpoints n).isNone
  · simp [h]
  · simp only [if_neg h]
    cases h₂ : aget s.endpointStats n with
    | none => left; simp [h₂]
    | some st =>
      by_cases h₃ : n = e'
      · subst h₃
        right
        exact ⟨st, h₂, by simp [h₂, aget_aset]⟩
      · left
        simp [h₂, aget_aset, h₃]

theorem unregister_endpoint_of_none {s : RegistryState} {n : String}
    (h : aget s.endpoints n = none) : unregister_endpoint n s = (false, s) := by
  simp [unregister_endpoint, h]

theorem unregister_endpoint_of_some {s : RegistryState} {n : String}
    {info : GraphQlEndpointInfo} (h : aget s.endpoints n = some info) :
    unregister_endpoint n s =
      (true,
       { endpoints := aerase ((etGet s n).foldl remove_tool s).endpoints n
         endpointSchemas := aerase ((etGet s n).foldl remove_tool s).endpointSchemas n
         toolToEndpoint := ((etGet s n).foldl remove_tool s).toolToEndpoint
         endpointToTools := aerase ((etGet s n).foldl remove_tool s).endpointToTools n
         endpointStats := aerase ((etGet s n).foldl remove_tool s).endpointStats n
         lastUpdated := aerase ((etGet s n).foldl remove_tool s).lastUpdated n }) := by
  simp [unregister_endpoint, h]

/-! ### Fold lemmas for cascaded tool removal -/

theorem foldl_remove_tool_endpoints (l : List String) (s : RegistryState) :
    (l.foldl remove_tool s).endpoints = s.endpoints := by
  induction l generalizing s with
  | nil => rfl
  | cons x xs ih => rw [List.foldl_cons, ih, remove_tool_endpoints]

theorem foldl_remove_tool_endpointSchemas (l : List String) (s : RegistryState) :
    (l.foldl remove_tool s).endpointSchemas = s.endpointSchemas := by
  induction l generalizing s with
  | nil => rfl
  | cons x xs ih => rw [List.foldl_cons, ih, remove_tool_endpointSchemas]

theorem foldl_remove_tool_stats_isSome (l : List String) (s : RegistryState)
    (e' : String) :
    (aget ((l.foldl remove_tool s)).endpointStats e').isSome
      = (aget s.endpointStats e').isSome := by
  induction l generalizing s with
  | nil => rfl
  | cons x xs ih => rw [List.foldl_cons, ih, remove_tool_stats_isSome]

theorem foldl_remove_tool_akeys_stats (l : List String) (s : RegistryState) :
    akeys ((l.foldl remove_tool s)).endpointStats = akeys s.endpointStats := by
  induction l generalizing s with
  | nil => rfl
  | cons x xs ih => rw [List.foldl_cons, ih, remove_tool_akeys_stats]

theorem foldl_remove_tool_tte (l : List String) (s : RegistryState) (t : String) :
    aget (l.foldl remove_tool s).toolToEndpoint t
      = if t ∈ l then none else aget s.toolToEndpoint t := by
  induction l generalizing s with
  | nil => simp
  | cons x xs ih =>
    rw [List.foldl_cons, ih, remove_tool_toolToEndpoint, aget_aerase]
    by_cases h₁ : t ∈ xs
    · simp [h₁]
    · by_cases h₂ : x = t
      · subst h₂; simp [h₁]
      · have h₃ : ¬t = x := fun hh => h₂ hh.symm
        simp [h₁, h₂, h₃, List.mem_cons]

theorem foldl_remove_tool_etGet_subset (l : List String) (s : RegistryState)
    (e' x : String) :
    x ∈ etGet (l.foldl remove_tool s) e' → x ∈ etGet s e' := by
  induction l generalizing s with
  | nil => exact id
  | cons y ys ih =>
    intro hx
    rw [List.foldl_cons] at hx
    exact remove_tool_etGet_subset s y e' x (ih (remove_tool s y) hx)

theorem foldl_remove_tool_counters (l : List String) (s : RegistryState)
    (e' : String) (st' : EndpointStats)
    (h : aget (l.foldl remove_tool s).endpointStats e' = some st') :
    ∃ st : EndpointStats, aget s.endpointStats e' = some st ∧
      st'.accessCount = st.accessCount ∧ st'.successCount = st.successCount ∧
      st'.errorCount = st.errorCount := by
  induction l generalizing s st' with
  | nil => exact ⟨st', h, rfl, rfl, rfl⟩
  | cons x xs ih =>
    rw [List.foldl_cons] at h
    obtain ⟨st₁, h₁, ha₁, hs₁, he₁⟩ := ih (remove_tool s x) st' h
    rcases remove_tool_stats s x e' with h₂ | ⟨st₀, h₂, h₃⟩
    · rw [h₂] at h₁
      exact ⟨st₁, h₁, ha₁, hs₁, he₁⟩
    · rw [h₃] at h₁
      obtain rfl := Option.some.injEq .. ▸ h₁
      exact ⟨st₀, h₂, ha₁, hs₁, he₁⟩

/-! ### Registry invariants -/

/-- Counter consistency of every stats entry
(`access_count == success_count + error_count`). -/
def StatsInv (s : RegistryState) : Prop :=
  ∀ e st, aget s.endpointStats e = some st →
    st.accessCount = st.successCount + st.errorCount

/-- Forward consistency of the bidirectional tool index: whenever the
tool→endpoint map sends `t` to `e`, `t` is in `e`'s tool set. -/
def MapInv (s : RegistryState) : Prop :=
  ∀ t e, aget s.toolToEndpoint t = some e → t ∈ etGet s e

/-- The stats table and the endpoint table always share their key set. -/
def KeysInv (s : RegistryState) : Prop :=
  ∀ e, (aget s.endpointStats e).isSome = (aget s.endpoints e).isSome

/-- The reachable-state invariant of the registry. -/
def Inv (s : RegistryState) : Prop :=
  StatsInv s ∧ MapInv s ∧ KeysInv s ∧
    (akeys s.endpointStats).Nodup ∧ (akeys s.endpoints).Nodup

theorem inv_empty : Inv RegistryState.empty := by
  refine ⟨?_, ?_, ?_, ?_, ?_⟩ <;> first
    | exact fun e st h => by simp [RegistryState.empty, aget] at h
    | exact fun t e h => by simp [RegistryState.empty, aget] at h
    | exact fun e => rfl
    | exact List.nodup_nil

theorem inv_register_endpoint {s : RegistryState} (now : Int)
    (info : GraphQlEndpointInfo) (sch : Option SchemaInfo) (h : Inv s) :
    Inv (register_endpoint now info sch s).2 := by
  obtain ⟨hs, hm, hk, hn₁, hn₂⟩ := h
  rw [register_endpoint_state]
  refine ⟨?_, ?_, ?_, ?_, ?_⟩
  · intro e st hst
    rw [aget_aset] at hst
    by_cases he : info.name = e
    · rw [if_pos he] at hst
      cases hst
      simp [freshStats]
    · rw [if_neg he] at hst
      exact hs e st hst
  · intro t e ht
    exact hm t e ht
  · intro e
    rw [aget_aset, aget_aset]
    by_cases he : info.name = e <;> simp [he, hk e]
  · exact nodup_akeys_aset info.name _ hn₁
  · exact nodup_akeys_aset info.name _ hn₂

theorem inv_record_endpoint_access {s : RegistryState} (now : Int) (e : String)
    (b : Bool) (h : Inv s) : Inv (record_endpoint_access now e b s) := by
  obtain ⟨hs, hm, hk, hn₁, hn₂⟩ := h
  unfold record_endpoint_access
  cases h₁ : aget s.endpointStats e with
  | none => exact ⟨hs, hm, hk, hn₁, hn₂⟩
  | some st =>
    refine ⟨?_, ?_, ?_, ?_, ?_⟩
    · intro e' st' hst
      rw [aget_aset] at hst
      by_cases he : e = e'
      · rw [if_pos he] at hst
        cases hst
        have := hs e st h₁
        cases b <;> simp [bumpStats] <;> omega
      · rw [if_neg he] at hst
        exact hs e' st' hst
    · intro t e' ht
      exact hm t e' ht
    · intro e'
      rw [aget_aset]
      by_cases he : e = e'
      · subst he
        rw [if_pos rfl, ← hk e, h₁]
        rfl
      · rw [if_neg he]
        exact hk e'
    · exact nodup_akeys_aset e _ hn₁
    · exact hn₂

theorem inv_remove_tool {s : RegistryState} (t : String) (h : Inv s) :
    Inv (remove_tool s t) := by
  obtain ⟨hs, hm, hk, hn₁, hn₂⟩ := h
  refine ⟨?_, ?_, ?_, ?_, ?_⟩
  · intro e' st' hst
    rcases remove_tool_stats s t e' with h₁ | ⟨st, h₁, h₂⟩
    · rw [h₁] at hst
      exact hs e' st' hst
    · rw [h₂] at hst
      cases hst
      exact hs e' st h₁
  · intro t' e' ht
    rw [remove_tool_toolToEndpoint, aget_aerase] at ht
    by_cases htt : t = t'
    · rw [if_pos htt] at ht
      exact absurd ht (by simp)
    · rw [if_neg htt] at ht
      have hin := hm t' e' ht
      cases h₁ : aget s.toolToEndpoint t with
      | none => rwa [remove_tool_etGet_of_none h₁]
      | some e =>
        rw [remove_tool_etGet_of_some h₁]
        by_cases h₃ : e = e'
        · subst h₃
          rw [if_pos rfl]
          exact mem_listDiscard.2 ⟨hin, fun hh => htt hh.symm⟩
        · rwa [if_neg h₃]
  · intro e'
    rw [remove_tool_stats_isSome, remove_tool_endpoints]
    exact hk e'
  · rw [remove_tool_akeys_stats]
    exact hn₁
  · rw [remove_tool_endpoints]
    exact hn₂

theorem inv_foldl_remove_tool {s : RegistryState} (l : List String) (h : Inv s) :
    Inv (l.foldl remove_tool s) := by
  induction l generalizing s with
  | nil => exact h
  | cons x xs ih => exact ih (inv_remove_tool x h)

theorem inv_register_tool {s : RegistryState} (t e : String) (h : Inv s) :
    Inv (register_tool t e s).2 := by
  obtain ⟨hs, hm, hk, hn₁, hn₂⟩ := h
  cases hreg : aget s.endpoints e with
  | none => rw [register_tool_of_none hreg]; exact ⟨hs, hm, hk, hn₁, hn₂⟩
  | some info =>
    refine ⟨?_, ?_, ?_, ?_, ?_⟩
    · intro e' st' hst
      rcases register_tool_stats s t e e' with h₁ | ⟨st, h₁, n, h₂⟩
      · rw [h₁] at hst
        exact hs e' st' hst
      · rw [h₂] at hst
        cases hst
        exact hs e' st h₁
    · intro t' e' ht
      rw [register_tool_tte hreg, aget_aset] at ht
      rw [register_tool_etGet hreg]
      by_cases htt : t = t'
      · rw [if_pos htt] at ht
        cases ht
        rw [if_pos rfl]
        exact mem_listAdd.2 (Or.inr htt.symm)
      · rw [if_neg htt] at ht
        have hin := hm t' e' ht
        by_cases h₃ : e = e'
        · subst h₃
          rw [if_pos rfl]
          exact mem_listAdd.2 (Or.inl hin)
        · rwa [if_neg h₃]
    · intro e'
      have h₁ : (register_tool t e s).2.endpoints = s.endpoints :=
        register_tool_endpoints t e s
      rw [h₁]
      rcases register_tool_stats s t e e' with h₂ | ⟨st, h₂, n, h₃⟩
      · rw [h₂]; exact hk e'
      · rw [h₃, ← hk e', h₂]
        rfl
    · -- stats keys unchanged: the only stats write is an in-place aset
      rcases register_tool_stats s t e e with h₂ | ⟨st, h₂, n, h₃⟩
      all_goals {
        unfold register_tool
        rw [hreg]
        simp only [Option.isNone_some, Bool.false_eq_true, if_false]
        cases h₄ : aget s.endpointStats e with
        | none => simpa using hn₁
        | some st₀ =>
          simp only [h₄]
          rw [akeys_aset]
          simpa [h₄] using hn₁
      }
    · rw [register_tool_endpoints]
      exact hn₂

theorem inv_update_endpoint_schema {s : RegistryState} (now : Int) (n : String)
    (sch : SchemaInfo) (h : Inv s) : Inv (update_endpoint_schema now n sch s).2 := by
  obtain ⟨hs, hm, hk, hn₁, hn₂⟩ := h
  cases hreg : aget s.endpoints n with
  | none => rw [update_endpoint_schema_of_none hreg]; exact ⟨hs, hm, hk, hn₁, hn₂⟩
  | some info =>
    refine ⟨?_, ?_, ?_, ?_, ?_⟩
    · intro e' st' hst
      rcases update_endpoint_schema_stats now n sch s e' with h₁ | ⟨st, h₁, h₂⟩
      · rw [h₁] at hst
        exact hs e' st' hst
      · rw [h₂] at hst
        cases hst
        exact hs e' st h₁
    · intro t' e' ht
      rw [update_endpoint_schema_tte] at ht
      have hin := hm t' e' ht
      show t' ∈ (aget (update_endpoint_schema now n sch s).2.endpointToTools e').getD []
      rw [update_endpoint_schema_ett]
      exact hin
    · intro e'
      rw [update_endpoint_schema_endpoints]
      rcases update_endpoint_schema_stats now n sch s e' with h₂ | ⟨st, h₂, h₃⟩
      · rw [h₂]; exact hk e'
      · rw [h₃, ← hk e', h₂]
        rfl
    · unfold update_endpoint_schema
      rw [hreg]
      simp only [Option.isNone_some, Bool.false_eq_true, if_false]
      cases h₄ : aget s.endpointStats n with
      | none => simpa using hn₁
      | some st₀ =>
        simp only [h₄]
        rw [akeys_aset]
        simpa [h₄] using hn₁
    · rw [update_endpoint_schema_endpoints]
      exact hn₂

theorem unregister_endpoint_snd_of_some {s : RegistryState} {n : String}
    {info : GraphQlEndpointInfo} (h : aget s.endpoints n = some info) :
    (unregister_endpoint n s).2 =
      { endpoints := aerase ((etGet s n).foldl remove_tool s).endpoints n
        endpointSchemas := aerase ((etGet s n).foldl remove_tool s).endpointSchemas n
        toolToEndpoint := ((etGet s n).foldl remove_tool s).toolToEndpoint
        endpointToTools := aerase ((etGet s n).foldl remove_tool s).endpointToTools n
        endpointStats := aerase ((etGet s n).foldl remove_tool s).endpointStats n
        lastUpdated := aerase ((etGet s n).foldl remove_tool s).lastUpdated n } := by
  rw [unregister_endpoint_of_some h]

theorem inv_unregister_endpoint {s : RegistryState} (n : String) (h : Inv s) :
    Inv (unregister_endpoint n s).2 := by
  cases hreg : aget s.endpoints n with
  | none => rw [unregister_endpoint_of_none hreg]; exact h
  | some info =>
    rw [unregister_endpoint_snd_of_some hreg]
    obtain ⟨hs₁, hm₁, hk₁, hn₁₁, hn₁₂⟩ := inv_foldl_remove_tool (s := s) (etGet s n) h
    refine ⟨?_, ?_, ?_, ?_, ?_⟩
    · intro e' st' hst
      replace hst : aget (aerase ((etGet s n).foldl remove_tool s).endpointStats n) e'
          = some st' := hst
      rw [aget_aerase] at hst
      by_cases he : n = e'
      · rw [if_pos he] at hst
        cases hst
      · rw [if_neg he] at hst
        exact hs₁ e' st' hst
    · intro t' e' ht
      have ht' : aget ((etGet s n).foldl remove_tool s).toolToEndpoint t' = some e' := ht
      by_cases he : n = e'
      · subst he
        rw [foldl_remove_tool_tte] at ht'
        by_cases hmem : t' ∈ etGet s n
        · rw [if_pos hmem] at ht'
          cases ht'
        · rw [if_neg hmem] at ht'
          exact absurd (h.2.1 t' n ht') hmem
      · have hin := hm₁ t' e' ht'
        show t' ∈ (aget (aerase ((etGet s n).foldl remove_tool s).endpointToTools n) e').getD []
        rw [aget_aerase, if_neg he]
        exact hin
    · intro e'
      show (aget (aerase ((etGet s n).foldl remove_tool s).endpointStats n) e').isSome
          = (aget (aerase ((etGet s n).foldl remove_tool s).endpoints n) e').isSome
      rw [aget_aerase, aget_aerase]
      by_cases he : n = e'
      · rw [if_pos he, if_pos he]
        rfl
      · rw [if_neg he, if_neg he]
        exact hk₁ e'
    · exact nodup_akeys_aerase n hn₁₁
    · exact nodup_akeys_aerase n hn₁₂


theorem inv_foldl_unregister {s : RegistryState} (l : List String) (h : Inv s) :
    Inv (l.foldl (fun st n => (unregister_endpoint n st).2) s) := by
  induction l generalizing s with
  | nil => exact h
  | cons x xs ih => exact ih (inv_unregister_endpoint x h)

theorem inv_cleanup_stale_endpoints {s : RegistryState} (now maxAgeHours : Int)
    (h : Inv s) : Inv (cleanup_stale_endpoints now maxAgeHours s).2 :=
  inv_foldl_unregister _ h

/-- Every reachable registry state satisfies the invariant. -/
theorem reachable_inv {s : RegistryState} (h : Reachable s) : Inv s := by
  induction h with
  | start => exact inv_empty
  | reg now info sch _ ih => exact inv_register_endpoint now info sch ih
  | unreg n _ ih => exact inv_unregister_endpoint n ih
  | regTool t e _ ih => exact inv_register_tool t e ih
  | remTool t _ ih => exact inv_remove_tool t ih
  | record now e b _ ih => exact inv_record_endpoint_access now e b ih
  | updSchema now e sch _ ih => exact inv_update_endpoint_schema now e sch ih
  | sweep now m _ ih => exact inv_cleanup_stale_endpoints now m ih

/-! ### Characterization of `unregister_endpoint` and the staleness sweep -/

theorem unregister_endpoint_endpoints_char (n : String) (s : RegistryState)
    (m : String) :
    aget (unregister_endpoint n s).2.endpoints m
      = if m = n then none else aget s.endpoints m := by
  cases hreg : aget s.endpoints n with
  | none =>
    rw [unregister_endpoint_of_none hreg]
    by_cases hm : m = n
    · subst hm; rw [if_pos rfl, hreg]
    · rw [if_neg hm]
  | some info =>
    rw [unregister_endpoint_snd_of_some hreg]
    show aget (aerase ((etGet s n).foldl remove_tool s).endpoints n) m = _
    rw [aget_aerase, foldl_remove_tool_endpoints]
    by_cases hm : m = n
    · subst hm
      rw [if_pos rfl]
    · rw [if_neg (fun h => hm h.symm), if_neg hm]

theorem foldl_unregister_endpoints_char (l : List String) (s : RegistryState)
    (m : String) :
    aget (l.foldl (fun st n => (unregister_endpoint n st).2) s).endpoints m
      = if m ∈ l then none else aget s.endpoints m := by
  induction l generalizing s with
  | nil => simp
  | cons x xs ih =>
    rw [List.foldl_cons, ih, unregister_endpoint_endpoints_char]
    by_cases h₁ : m ∈ xs
    · simp [h₁]
    · by_cases h₂ : m = x
      · subst h₂; simp [h₁]
      · simp [h₁, h₂, List.mem_cons]

theorem unregister_endpoint_tte_cases (n : String) (s : RegistryState)
    (t : String) :
    aget (unregister_endpoint n s).2.toolToEndpoint t = none
    ∨ aget (unregister_endpoint n s).2.toolToEndpoint t
        = aget s.toolToEndpoint t := by
  cases hreg : aget s.endpoints n with
  | none => right; rw [unregister_endpoint_of_none hreg]
  | some info =>
    rw [unregister_endpoint_snd_of_some hreg]
    show (aget ((etGet s n).foldl remove_tool s).toolToEndpoint t = none) ∨ _
    rw [foldl_remove_tool_tte]
    by_cases hm : t ∈ etGet s n
    · left; rw [if_pos hm]
    · right
      show (if t ∈ etGet s n then none else aget s.toolToEndpoint t) = _
      rw [if_neg hm]

theorem unregister_endpoint_tte_none_mono {n : String} {s : RegistryState}
    {t : String} (h : aget s.toolToEndpoint t = none) :
    aget (unregister_endpoint n s).2.toolToEndpoint t = none := by
  cases hreg : aget s.endpoints n with
  | none => rw [unregister_endpoint_of_none hreg]; exact h
  | some info =>
    rw [unregister_endpoint_snd_of_some hreg]
    show aget ((etGet s n).foldl remove_tool s).toolToEndpoint t = none
    rw [foldl_remove_tool_tte]
    by_cases hm : t ∈ etGet s n
    · rw [if_pos hm]
    · rw [if_neg hm]; exact h

theorem foldl_unregister_tte_none_mono (l : List String) {s : RegistryState}
    {t : String} (h : aget s.toolToEndpoint t = none) :
    aget (l.foldl (fun st n => (unregister_endpoint n st).2) s).toolToEndpoint t
      = none := by
  induction l generalizing s with
  | nil => exact h
  | cons x xs ih => exact ih (unregister_endpoint_tte_none_mono h)

theorem unregister_endpoint_kills_mapping {s : RegistryState} {t n : String}
    (hInv : Inv s) (hmap : aget s.toolToEndpoint t = some n)
    {info : GraphQlEndpointInfo} (hreg : aget s.endpoints n = some info) :
    aget (unregister_endpoint n s).2.toolToEndpoint t = none := by
  rw [unregister_endpoint_snd_of_some hreg]
  show aget ((etGet s n).foldl remove_tool s).toolToEndpoint t = none
  rw [foldl_remove_tool_tte]
  have hmem : t ∈ etGet s n := hInv.2.1 t n hmap
  rw [if_pos hmem]

theorem foldl_unregister_kills (l : List String) (s : RegistryState)
    (t e : String) (hInv : Inv s) (hmap : aget s.toolToEndpoint t = some e)
    (hl : e ∈ l) (hregs : ∀ n ∈ l, (aget s.endpoints n).isSome)
    (hnd : l.Nodup) :
    aget (l.foldl (fun st n => (unregister_endpoint n st).2) s).toolToEndpoint t
      = none := by
  induction l generalizing s with
  | nil => simp at hl
  | cons x xs ih =>
    rw [List.foldl_cons]
    rcases List.mem_cons.1 hl with rfl | hxs
    · obtain ⟨info, hinfo⟩ := Option.isSome_iff_exists.1 (hregs e (List.mem_cons_self e xs))
      exact foldl_unregister_tte_none_mono xs
        (unregister_endpoint_kills_mapping hInv hmap hinfo)
    · have hInv' : Inv (unregister_endpoint x s).2 := inv_unregister_endpoint x hInv
      rcases unregister_endpoint_tte_cases x s t with h₁ | h₁
      · exact foldl_unregister_tte_none_mono xs h₁
      · have hxne : e ≠ x := by
          intro hh
          subst hh
          exact (List.nodup_cons.1 hnd).1 hxs
        refine ih (unregister_endpoint x s).2 hInv' (h₁.trans hmap) hxs ?_
          (List.nodup_cons.1 hnd).2
        intro n hn
        rw [unregister_endpoint_endpoints_char]
        have hne : n ≠ x := by
          intro hh
          subst hh
          exact (List.nodup_cons.1 hnd).1 hn
        rw [if_neg hne]
        exact hregs n (List.mem_cons_of_mem x hn)

/-- Whether the sweep at time `now` regards the endpoint named `n` as stale
in state `s` (false for names without a stats entry, which the sweep never
visits). -/
def staleName (now maxAgeHours : Int) (s : RegistryState) (n : String) : Bool :=
  match aget s.endpointStats n with
  | some st => staleStats now maxAgeHours st
  | none => false

theorem mem_stale_list_iff (now m : Int) (s : RegistryState)
    (hnd : (akeys s.endpointStats).Nodup) (n : String) :
    n ∈ (s.endpointStats.filter (fun p => staleStats now m p.2)).map Prod.fst
      ↔ staleName now m s n = true := by
  constructor
  · intro h
    obtain ⟨p, hp, rfl⟩ := List.mem_map.1 h
    obtain ⟨hpm, hps⟩ := List.mem_filter.1 hp
    have hget : aget s.endpointStats p.1 = some p.2 :=
      aget_eq_some_of_mem_nodup hnd (by simpa using hpm)
    unfold staleName
    rw [hget]
    exact hps
  · intro h
    unfold staleName at h
    cases hst : aget s.endpointStats n with
    | none => rw [hst] at h; simp at h
    | some st =>
      rw [hst] at h
      exact List.mem_map.2
        ⟨(n, st), List.mem_filter.2 ⟨mem_of_aget_eq_some hst, h⟩, rfl⟩

theorem stale_list_nodup (now m : Int) (s : RegistryState)
    (hnd : (akeys s.endpointStats).Nodup) :
    ((s.endpointStats.filter (fun p => staleStats now m p.2)).map Prod.fst).Nodup := by
  have hsub :
      List.Sublist ((s.endpointStats.filter (fun p => staleStats now m p.2)).map Prod.fst)
        (akeys s.endpointStats) :=
    (List.filter_sublist s.endpointStats).map Prod.fst
  exact hnd.sublist hsub

theorem stale_isSome (now m : Int) (s : RegistryState) (hk : KeysInv s)
    {n : String} (h : staleName now m s n = true) :
    (aget s.endpoints n).isSome := by
  unfold staleName at h
  cases hst : aget s.endpointStats n with
  | none => rw [hst] at h; simp at h
  | some st =>
    rw [← hk n, hst]
    rfl

theorem cleanup_endpoints_char (now m : Int) {s : RegistryState} (h : Inv s)
    (n : String) :
    aget (cleanup_stale_endpoints now m s).2.endpoints n
      = if staleName now m s n = true then none else aget s.endpoints n := by
  obtain ⟨hs, hmI, hk, hn₁, hn₂⟩ := h
  unfold cleanup_stale_endpoints
  rw [foldl_unregister_endpoints_char]
  by_cases hst : staleName now m s n = true
  · rw [if_pos ((mem_stale_list_iff now m s hn₁ n).2 hst), if_pos hst]
  · rw [if_neg (fun hmem => hst ((mem_stale_list_iff now m s hn₁ n).1 hmem)),
      if_neg hst]

theorem foldl_unregister_length (l : List String) (s : RegistryState)
    (hInv : Inv s) (hregs : ∀ n ∈ l, (aget s.endpoints n).isSome)
    (hnd : l.Nodup) :
    (l.foldl (fun st n => (unregister_endpoint n st).2) s).endpoints.length
        + l.length
      = s.endpoints.length := by
  induction l generalizing s with
  | nil => simp
  | cons x xs ih =>
    rw [List.foldl_cons]
    have hx := hregs x (List.mem_cons_self x xs)
    obtain ⟨info, hinfo⟩ := Option.isSome_iff_exists.1 hx
    have hlen : (unregister_endpoint x s).2.endpoints.length + 1
        = s.endpoints.length := by
      rw [unregister_endpoint_snd_of_some hinfo]
      show (aerase ((etGet s x).foldl remove_tool s).endpoints x).length + 1 = _
      rw [foldl_remove_tool_endpoints]
      exact length_aerase_of_aget_isSome hInv.2.2.2.2 hx
    have hInv' := inv_unregister_endpoint x hInv
    have hregs' : ∀ n ∈ xs, (aget (unregister_endpoint x s).2.endpoints n).isSome := by
      intro n hn
      rw [unregister_endpoint_endpoints_char]
      have hne : n ≠ x := by
        intro hh
        subst hh
        exact (List.nodup_cons.1 hnd).1 hn
      rw [if_neg hne]
      exact hregs n (List.mem_cons_of_mem x hn)
    have hrec := ih (unregister_endpoint x s).2 hInv' hregs' (List.nodup_cons.1 hnd).2
    rw [List.length_cons]
    omega

theorem cleanup_count (now m : Int) {s : RegistryState} (h : Inv s) :
    s.endpoints.length
      = (cleanup_stale_endpoints now m s).2.endpoints.length
          + (cleanup_stale_endpoints now m s).1 := by
  obtain ⟨hs, hmI, hk, hn₁, hn₂⟩ := h
  simp only [cleanup_stale_endpoints]
  have hnd := stale_list_nodup now m s hn₁
  have hregs : ∀ n ∈ (s.endpointStats.filter (fun p => staleStats now m p.2)).map Prod.fst,
      (aget s.endpoints n).isSome := by
    intro n hn
    exact stale_isSome now m s hk ((mem_stale_list_iff now m s hn₁ n).1 hn)
  have hrec := foldl_unregister_length _ s ⟨hs, hmI, hk, hn₁, hn₂⟩ hregs hnd
  rw [List.length_map] at hrec ⊢
  omega

theorem cleanup_kills_stale_mappings (now m : Int) {s : RegistryState}
    (h : Inv s) (t e : String) (hmap : aget s.toolToEndpoint t = some e)
    (hst : staleName now m s e = true) :
    aget (cleanup_stale_endpoints now m s).2.toolToEndpoint t = none := by
  unfold cleanup_stale_endpoints
  refine foldl_unregister_kills _ s t e h hmap ?_ ?_ ?_
  · exact (mem_stale_list_iff now m s h.2.2.2.1 e).2 hst
  · intro n hn
    exact stale_isSome now m s h.2.2.1 ((mem_stale_list_iff now m s h.2.2.2.1 n).1 hn)
  · exact stale_list_nodup now m s h.2.2.2.1

/-! ### Batch engine lemmas -/

theorem record_endpoint_access_endpoints (now : Int) (e : String) (b : Bool)
    (s : RegistryState) :
    (record_endpoint_access now e b s).endpoints = s.endpoints := by
  unfold record_endpoint_access
  cases h : aget s.endpointStats e <;> rfl

theorem escapeResult_success (op : Operation) (i : Nat) (msg : String) :
    (escapeResult op i msg).success = false := rfl

theorem execute_single_operation_endpoints_eq {now : Int} {reg : RegistryState}
    {gw : GwBehavior} {op : Operation} {i : Nat} {r : BatchOperationResult}
    {reg' : RegistryState} {b : Bool}
    (h : execute_single_operation now reg gw op i = .ok (r, reg', b)) :
    reg'.endpoints = reg.endpoints := by
  simp only [execute_single_operation] at h
  cases h₁ : aget reg.endpoints (op.endpoint.getD "") with
  | none =>
    rw [h₁] at h
    cases h
    rfl
  | some info =>
    rw [h₁] at h
    cases gw with
    | escapes msg => cases h
    | raises msg => cases h; rfl
    | returns data errors =>
      cases h
      exact record_endpoint_access_endpoints ..

theorem singleResult_congr {reg₁ reg₂ : RegistryState}
    (h : reg₁.endpoints = reg₂.endpoints) (now : Int) (gw : GwBehavior)
    (op : Operation) (i : Nat) :
    singleResult now reg₁ gw op i = singleResult now reg₂ gw op i := by
  simp only [singleResult, execute_single_operation]
  rw [h]
  cases aget reg₂.endpoints (op.endpoint.getD "") <;> cases gw <;> rfl

theorem singleResult_index (now : Int) (reg : RegistryState) (gw : GwBehavior)
    (op : Operation) (i : Nat) : (singleResult now reg gw op i).index = i := by
  simp only [singleResult, execute_single_operation]
  cases aget reg.endpoints (op.endpoint.getD "") <;> cases gw <;> rfl

theorem singleResult_failure_error (now : Int) (reg : RegistryState)
    (gw : GwBehavior) (op : Operation) (i : Nat)
    (h : (singleResult now reg gw op i).success = false) :
    (singleResult now reg gw op i).error.isSome := by
  simp only [singleResult, execute_single_operation] at h ⊢
  cases h₁ : aget reg.endpoints (op.endpoint.getD "") with
  | none => rfl
  | some info =>
    rw [h₁] at h
    cases gw with
    | escapes msg => rfl
    | raises msg => rfl
    | returns data errors =>
      have h' : errors.isEmpty = false := by simpa using h
      simp [h']

theorem singleResult_of_ok {now : Int} {reg : RegistryState} {gw : GwBehavior}
    {op : Operation} {i : Nat} {r : BatchOperationResult} {reg' : RegistryState}
    {b : Bool} (h : execute_single_operation now reg gw op i = .ok (r, reg', b)) :
    singleResult now reg gw op i = r := by
  unfold singleResult
  rw [h]

theorem singleResult_of_error {now : Int} {reg : RegistryState} {gw : GwBehavior}
    {op : Operation} {i : Nat} {msg : String}
    (h : execute_single_operation now reg gw op i = .error msg) :
    singleResult now reg gw op i = escapeResult op i msg := by
  unfold singleResult
  rw [h]

theorem runSequential_cons (now : Int) (gw : Nat → GwBehavior) (coe : Bool)
    (reg : RegistryState) (i : Nat) (op : Operation) (rest : List Operation) :
    runSequential now gw coe reg i (op :: rest) =
      match execute_single_operation now reg (gw i) op i with
      | .ok (r, reg', _) =>
          if !r.success && !coe then ([r], reg')
          else
            (r :: (runSequential now gw coe reg' (i + 1) rest).1,
             (runSequential now gw coe reg' (i + 1) rest).2)
      | .error msg =>
          if !coe then ([escapeResult op i msg], reg)
          else
            (escapeResult op i msg :: (runSequential now gw coe reg (i + 1) rest).1,
             (runSequential now gw coe reg (i + 1) rest).2) := rfl

theorem runSequential_cons_ok {now : Int} {gw : Nat → GwBehavior} {coe : Bool}
    {reg : RegistryState} {i : Nat} {op : Operation} (rest : List Operation)
    {r : BatchOperationResult} {reg' : RegistryState} {b : Bool}
    (h : execute_single_operation now reg (gw i) op i = .ok (r, reg', b)) :
    runSequential now gw coe reg i (op :: rest) =
      if !r.success && !coe then ([r], reg')
      else
        (r :: (runSequential now gw coe reg' (i + 1) rest).1,
         (runSequential now gw coe reg' (i + 1) rest).2) := by
  rw [runSequential_cons, h]

theorem runSequential_cons_error {now : Int} {gw : Nat → GwBehavior} {coe : Bool}
    {reg : RegistryState} {i : Nat} {op : Operation} (rest : List Operation)
    {msg : String}
    (h : execute_single_operation now reg (gw i) op i = .error msg) :
    runSequential now gw coe reg i (op :: rest) =
      if !coe then ([escapeResult op i msg], reg)
      else
        (escapeResult op i msg :: (runSequential now gw coe reg (i + 1) rest).1,
         (runSequential now gw coe reg (i + 1) rest).2) := by
  rw [runSequential_cons, h]

theorem runParallel_cons (now : Int) (gw : Nat → GwBehavior)
    (reg : RegistryState) (i : Nat) (op : Operation) (rest : List Operation) :
    runParallel now gw reg i (op :: rest) =
      match execute_single_operation now reg (gw i) op i with
      | .ok (r, reg', _) =>
          (r :: (runParallel now gw reg' (i + 1) rest).1,
           (runParallel now gw reg' (i + 1) rest).2)
      | .error msg =>
          (escapeResult op i msg :: (runParallel now gw reg (i + 1) rest).1,
           (runParallel now gw reg (i + 1) rest).2) := rfl

theorem runParallel_cons_ok {now : Int} {gw : Nat → GwBehavior}
    {reg : RegistryState} {i : Nat} {op : Operation} {rest : List Operation}
    {r : BatchOperationResult} {reg' : RegistryState} {b : Bool}
    (h : execute_single_operation now reg (gw i) op i = .ok (r, reg', b)) :
    runParallel now gw reg i (op :: rest) =
      (r :: (runParallel now gw reg' (i + 1) rest).1,
       (runParallel now gw reg' (i + 1) rest).2) := by
  rw [runParallel_cons, h]

theorem runParallel_cons_error {now : Int} {gw : Nat → GwBehavior}
    {reg : RegistryState} {i : Nat} {op : Operation} {rest : List Operation}
    {msg : String}
    (h : execute_single_operation now reg (gw i) op i = .error msg) :
    runParallel now gw reg i (op :: rest) =
      (escapeResult op i msg :: (runParallel now gw reg (i + 1) rest).1,
       (runParallel now gw reg (i + 1) rest).2) := by
  rw [runParallel_cons, h]

theorem escapeResult_index (op : Operation) (i : Nat) (msg : String) :
    (escapeResult op i msg).index = i := rfl

theorem escapeResult_error_isSome (op : Operation) (i : Nat) (msg : String) :
    (escapeResult op i msg).error.isSome := rfl

theorem runSequential_index (now : Int) (gw : Nat → GwBehavior) (coe : Bool) :
    ∀ (ops : List Operation) (reg : RegistryState) (i j : Nat),
      j < (runSequential now gw coe reg i ops).1.length →
      ((runSequential now gw coe reg i ops).1.getD j default).index = i + j := by
  intro ops
  induction ops with
  | nil => intro reg i j hj; simp [runSequential] at hj
  | cons op rest ih =>
    intro reg i j hj
    cases h : execute_single_operation now reg (gw i) op i with
    | ok t =>
      obtain ⟨r, reg', b⟩ := t
      have hr : r.index = i := by
        rw [← singleResult_of_ok h]
        exact singleResult_index ..
      rw [runSequential_cons_ok rest h] at hj ⊢
      by_cases hc : (!r.success && !coe) = true
      · rw [if_pos hc] at hj ⊢
        have hj0 : j = 0 := by
          simp at hj
          omega
        subst hj0
        simpa using hr
      · rw [if_neg hc] at hj ⊢
        cases j with
        | zero => simpa using hr
        | succ j' =>
          rw [List.getD_cons_succ]
          have := ih reg' (i + 1) j' (by simpa using hj)
          rw [this]
          omega
    | error msg =>
      rw [runSequential_cons_error rest h] at hj ⊢
      by_cases hc : (!coe) = true
      · rw [if_pos hc] at hj ⊢
        have hj0 : j = 0 := by
          simp at hj
          omega
        subst hj0
        simp [escapeResult_index]
      · rw [if_neg hc] at hj ⊢
        cases j with
        | zero => simp [escapeResult_index]
        | succ j' =>
          rw [List.getD_cons_succ]
          have := ih reg (i + 1) j' (by simpa using hj)
          rw [this]
          omega

theorem runParallel_index (now : Int) (gw : Nat → GwBehavior) :
    ∀ (ops : List Operation) (reg : RegistryState) (i j : Nat),
      j < (runParallel now gw reg i ops).1.length →
      ((runParallel now gw reg i ops).1.getD j default).index = i + j := by
  intro ops
  induction ops with
  | nil => intro reg i j hj; simp [runParallel] at hj
  | cons op rest ih =>
    intro reg i j hj
    cases h : execute_single_operation now reg (gw i) op i with
    | ok t =>
      obtain ⟨r, reg', b⟩ := t
      have hr : r.index = i := by
        rw [← singleResult_of_ok h]
        exact singleResult_index ..
      rw [runParallel_cons_ok h] at hj ⊢
      cases j with
      | zero => simpa using hr
      | succ j' =>
        rw [List.getD_cons_succ]
        have := ih reg' (i + 1) j' (by simpa using hj)
        rw [this]
        omega
    | error msg =>
      rw [runParallel_cons_error h] at hj ⊢
      cases j with
      | zero => simp [escapeResult_index]
      | succ j' =>
        rw [List.getD_cons_succ]
        have := ih reg (i + 1) j' (by simpa using hj)
        rw [this]
        omega

theorem runSequential_failure_error (now : Int) (gw : Nat → GwBehavior)
    (coe : Bool) :
    ∀ (ops : List Operation) (reg : RegistryState) (i : Nat)
      (r : BatchOperationResult), r ∈ (runSequential now gw coe reg i ops).1 →
      r.success = false → r.error.isSome := by
  intro ops
  induction ops with
  | nil => intro reg i r hr; simp [runSequential] at hr
  | cons op rest ih =>
    intro reg i r hr hfail
    cases h : execute_single_operation now reg (gw i) op i with
    | ok t =>
      obtain ⟨r₀, reg', b⟩ := t
      have hr₀ : singleResult now reg (gw i) op i = r₀ := singleResult_of_ok h
      rw [runSequential_cons_ok rest h] at hr
      by_cases hc : (!r₀.success && !coe) = true
      · rw [if_pos hc] at hr
        rw [List.mem_singleton] at hr
        subst hr
        rw [← hr₀] at hfail ⊢
        exact singleResult_failure_error now reg (gw i) op i hfail
      · rw [if_neg hc] at hr
        rcases List.mem_cons.1 hr with rfl | hr'
        · rw [← hr₀] at hfail ⊢
          exact singleResult_failure_error now reg (gw i) op i hfail
        · exact ih reg' (i + 1) r hr' hfail
    | error msg =>
      rw [runSequential_cons_error rest h] at hr
      by_cases hc : (!coe) = true
      · rw [if_pos hc] at hr
        rw [List.mem_singleton] at hr
        subst hr
        exact escapeResult_error_isSome ..
      · rw [if_neg hc] at hr
        rcases List.mem_cons.1 hr with rfl | hr'
        · exact escapeResult_error_isSome ..
        · exact ih reg (i + 1) r hr' hfail

theorem runParallel_failure_error (now : Int) (gw : Nat → GwBehavior) :
    ∀ (ops : List Operation) (reg : RegistryState) (i : Nat)
      (r : BatchOperationResult), r ∈ (runParallel now gw reg i ops).1 →
      r.success = false → r.error.isSome := by
  intro ops
  induction ops with
  | nil => intro reg i r hr; simp [runParallel] at hr
  | cons op rest ih =>
    intro reg i r hr hfail
    cases h : execute_single_operation now reg (gw i) op i with
    | ok t =>
      obtain ⟨r₀, reg', b⟩ := t
      have hr₀ : singleResult now reg (gw i) op i = r₀ := singleResult_of_ok h
      rw [runParallel_cons_ok h] at hr
      rcases List.mem_cons.1 hr with rfl | hr'
      · rw [← hr₀] at hfail ⊢
        exact singleResult_failure_error now reg (gw i) op i hfail
      · exact ih reg' (i + 1) r hr' hfail
    | error msg =>
      rw [runParallel_cons_error h] at hr
      rcases List.mem_cons.1 hr with rfl | hr'
      · exact escapeResult_error_isSome ..
      · exact ih reg (i + 1) r hr' hfail

/-- Sequential execution with `continue_on_error = false` stops right after
the first failing operation: the output lists the per-operation results of
positions `0..k` exactly, and the final registry state is the one produced
by running only the first `k + 1` operations. -/
theorem runSequential_first_failure (now : Int) (gw : Nat → GwBehavior) :
    ∀ (ops : List Operation) (reg : RegistryState) (i k : Nat),
      k < ops.length →
      (∀ j, j < k →
        (singleResult now reg (gw (i + j)) (ops.getD j default) (i + j)).success = true) →
      (singleResult now reg (gw (i + k)) (ops.getD k default) (i + k)).success = false →
      runSequential now gw false reg i ops
        = ((List.range (k + 1)).map
             (fun j => singleResult now reg (gw (i + j)) (ops.getD j default) (i + j)),
           (runSequential now gw false reg i (ops.take (k + 1))).2) := by
  intro ops
  induction ops with
  | nil => intro reg i k hk _ _; simp at hk
  | cons op rest ih =>
    intro reg i k hk hpre hfail
    cases k with
    | zero =>
      have hfail0 : (singleResult now reg (gw i) op i).success = false := by
        simpa using hfail
      have htake : (op :: rest).take (0 + 1) = [op] := rfl
      cases h : execute_single_operation now reg (gw i) op i with
      | ok t =>
        obtain ⟨r, reg', b⟩ := t
        have hr : singleResult now reg (gw i) op i = r := singleResult_of_ok h
        have hrf : r.success = false := by rw [← hr]; exact hfail0
        rw [htake, runSequential_cons_ok rest h,
          runSequential_cons_ok ([] : List Operation) h,
          if_pos (by simp [hrf])]
        have hr1 : List.range 1 = [0] := rfl
        simp [hr, hrf, hr1]
      | error msg =>
        have hr : singleResult now reg (gw i) op i = escapeResult op i msg :=
          singleResult_of_error h
        rw [htake, runSequential_cons_error rest h,
          runSequential_cons_error ([] : List Operation) h,
          if_pos (by simp)]
        have hr1 : List.range 1 = [0] := rfl
        simp [hr, hr1]
    | succ k' =>
      have hsucc : (singleResult now reg (gw i) op i).success = true := by
        have h0 := hpre 0 (Nat.succ_pos k')
        simpa using h0
      cases h : execute_single_operation now reg (gw i) op i with
      | error msg =>
        exfalso
        rw [singleResult_of_error h] at hsucc
        exact absurd hsucc (by simp [escapeResult_success])
      | ok t =>
        obtain ⟨r, reg', b⟩ := t
        have hr : singleResult now reg (gw i) op i = r := singleResult_of_ok h
        have hrs : r.success = true := by rw [← hr]; exact hsucc
        have hE : reg'.endpoints = reg.endpoints :=
          execute_single_operation_endpoints_eq h
        have hcongr : ∀ (g : GwBehavior) (o : Operation) (m : Nat),
            singleResult now reg' g o m = singleResult now reg g o m :=
          fun g o m => singleResult_congr hE now g o m
        have hk' : k' < rest.length := by simpa using hk
        have hpre' : ∀ j, j < k' →
            (singleResult now reg' (gw (i + 1 + j)) (rest.getD j default)
              (i + 1 + j)).success = true := by
          intro j hj
          rw [hcongr]
          have hstep := hpre (j + 1) (Nat.succ_lt_succ hj)
          have harith : i + (j + 1) = i + 1 + j := by omega
          rw [harith] at hstep
          simpa using hstep
        have hfail' : (singleResult now reg' (gw (i + 1 + k')) (rest.getD k' default)
            (i + 1 + k')).success = false := by
          rw [hcongr]
          have harith : i + (k' + 1) = i + 1 + k' := by omega
          rw [harith] at hfail
          simpa using hfail
        have hrec := ih reg' (i + 1) k' hk' hpre' hfail'
        rw [runSequential_cons_ok rest h, if_neg (by simp [hrs]), hrec]
        rw [Prod.mk.injEq]
        refine ⟨?_, ?_⟩
        · rw [List.range_succ_eq_map (k' + 1), List.map_cons, List.map_map]
          congr 1
          · simpa using hr.symm
          · refine List.map_congr_left ?_
            intro j hj
            show singleResult now reg' (gw (i + 1 + j)) (rest.getD j default)
                (i + 1 + j)
              = singleResult now reg (gw (i + (j + 1)))
                  ((op :: rest).getD (j + 1) default) (i + (j + 1))
            rw [hcongr]
            have harith : i + (j + 1) = i + 1 + j := by omega
            rw [harith]
            simp
        · have htake : (op :: rest).take (k' + 1 + 1) = op :: rest.take (k' + 1) :=
            rfl
          rw [htake, runSequential_cons_ok (rest.take (k' + 1)) h,
            if_neg (by simp [hrs])]

theorem runParallel_length (now : Int) (gw : Nat → GwBehavior) :
    ∀ (ops : List Operation) (reg : RegistryState) (i : Nat),
      (runParallel now gw reg i ops).1.length = ops.length := by
  intro ops
  induction ops with
  | nil => intro reg i; rfl
  | cons op rest ih =>
    intro reg i
    cases h : execute_single_operation now reg (gw i) op i with
    | ok t =>
      obtain ⟨r, reg', b⟩ := t
      rw [runParallel_cons_ok h]
      simp [ih]
    | error msg =>
      rw [runParallel_cons_error h]
      simp [ih]

theorem runSequential_length_of_continue (now : Int) (gw : Nat → GwBehavior) :
    ∀ (ops : List Operation) (reg : RegistryState) (i : Nat),
      (runSequential now gw true reg i ops).1.length = ops.length := by
  intro ops
  induction ops with
  | nil => intro reg i; rfl
  | cons op rest ih =>
    intro reg i
    cases h : execute_single_operation now reg (gw i) op i with
    | ok t =>
      obtain ⟨r, reg', b⟩ := t
      rw [runSequential_cons_ok rest h, if_neg (by simp)]
      simp [ih]
    | error msg =>
      rw [runSequential_cons_error rest h, if_neg (by simp)]
      simp [ih]

theorem runParallel_getD (now : Int) (gw : Nat → GwBehavior) :
    ∀ (ops : List Operation) (reg : RegistryState) (i j : Nat), j < ops.length →
      (runParallel now gw reg i ops).1.getD j default
        = singleResult now reg (gw (i + j)) (ops.getD j default) (i + j) := by
  intro ops
  induction ops with
  | nil => intro reg i j hj; simp at hj
  | cons op rest ih =>
    intro reg i j hj
    cases h : execute_single_operation now reg (gw i) op i with
    | ok t =>
      obtain ⟨r, reg', b⟩ := t
      have hE : reg'.endpoints = reg.endpoints :=
        execute_single_operation_endpoints_eq h
      rw [runParallel_cons_ok h]
      cases j with
      | zero => simpa using (singleResult_of_ok h).symm
      | succ j' =>
        rw [List.getD_cons_succ]
        have hrec := ih reg' (i + 1) j' (by simpa using hj)
        rw [hrec, singleResult_congr hE]
        have harith : i + 1 + j' = i + (j' + 1) := by omega
        rw [harith]
        simp
    | error msg =>
      rw [runParallel_cons_error h]
      cases j with
      | zero => simpa using (singleResult_of_error h).symm
      | succ j' =>
        rw [List.getD_cons_succ]
        have hrec := ih reg (i + 1) j' (by simpa using hj)
        rw [hrec]
        have harith : i + 1 + j' = i + (j' + 1) := by omega
        rw [harith]
        simp

theorem runSequential_getD (now : Int) (gw : Nat → GwBehavior) (coe : Bool) :
    ∀ (ops : List Operation) (reg : RegistryState) (i j : Nat),
      j < (runSequential now gw coe reg i ops).1.length →
      (runSequential now gw coe reg i ops).1.getD j default
        = singleResult now reg (gw (i + j)) (ops.getD j default) (i + j) := by
  intro ops
  induction ops with
  | nil => intro reg i j hj; simp [runSequential] at hj
  | cons op rest ih =>
    intro reg i j hj
    cases h : execute_single_operation now reg (gw i) op i with
    | ok t =>
      obtain ⟨r, reg', b⟩ := t
      have hE : reg'.endpoints = reg.endpoints :=
        execute_single_operation_endpoints_eq h
      rw [runSequential_cons_ok rest h] at hj ⊢
      by_cases hc : (!r.success && !coe) = true
      · rw [if_pos hc] at hj ⊢
        have hj0 : j = 0 := by
          simp at hj
          omega
        subst hj0
        simpa using (singleResult_of_ok h).symm
      · rw [if_neg hc] at hj ⊢
        cases j with
        | zero => simpa using (singleResult_of_ok h).symm
        | succ j' =>
          rw [List.getD_cons_succ]
          have hrec := ih reg' (i + 1) j' (by simpa using hj)
          rw [hrec, singleResult_congr hE]
          have harith : i + 1 + j' = i + (j' + 1) := by omega
          rw [harith]
          simp
    | error msg =>
      rw [runSequential_cons_error rest h] at hj ⊢
      by_cases hc : (!coe) = true
      · rw [if_pos hc] at hj ⊢
        have hj0 : j = 0 := by
          simp at hj
          omega
        subst hj0
        simpa using (singleResult_of_error h).symm
      · rw [if_neg hc] at hj ⊢
        cases j with
        | zero => simpa using (singleResult_of_error h).symm
        | succ j' =>
          rw [List.getD_cons_succ]
          have hrec := ih reg (i + 1) j' (by simpa using hj)
          rw [hrec]
          have harith : i + 1 + j' = i + (j' + 1) := by omega
          rw [harith]
          simp

/-! ### Fixtures for concrete instantiations -/

def demoInfo1 : GraphQlEndpointInfo := { name := "e1", url := "u1" }

def demoInfo2 : GraphQlEndpointInfo := { name := "e2", url := "u2" }

def apiInfo : GraphQlEndpointInfo := { name := "api", url := "u" }

/-- Re-associating tool `t` from `e1` to `e2`. -/
def c1State : RegistryState :=
  (register_tool "t" "e2" (register_tool "t" "e1"
    (register_endpoint 0 demoInfo2 none
      (register_endpoint 0 demoInfo1 none RegistryState.empty).2).2).2).2

def c1WState : RegistryState :=
  (register_tool "t" "e1" (register_endpoint 0 demoInfo1 none RegistryState.empty).2).2

def c4Reg : RegistryState :=
  record_endpoint_access 9 "api" false
    (record_endpoint_access 5 "api" true
      (register_endpoint 0 apiInfo none RegistryState.empty).2)

def c4Stats : EndpointStats := bumpStats 9 false (bumpStats 5 true (freshStats 0 none))

def c5Reg : RegistryState := (register_endpoint 0 apiInfo none RegistryState.empty).2

/-! ### Claim theorems -/

/-- C1 (counterexample): the bidirectional consistency claimed for the
tool index fails on a reachable state.  After `register_tool("t","e1")`
then `register_tool("t","e2")`, tool `t` is still a member of endpoint
`e1`'s tool set, yet the tool-to-endpoint map does not send `t` to `e1`
(`register_tool` lines 175-177 never remove the tool from its previous
endpoint's set). -/
theorem c1_bidirectional_consistency_counterexample :
    Reachable c1State ∧ "t" ∈ etGet c1State "e1"
      ∧ aget c1State.toolToEndpoint "t" ≠ some "e1" :=
  ⟨Reachable.regTool "t" "e2" (Reachable.regTool "t" "e1"
      (Reachable.reg 0 demoInfo2 none
        (Reachable.reg 0 demoInfo1 none Reachable.start))),
   by decide, by decide⟩

/-- C1 (amended): in every reachable registry state the forward direction
of the consistency invariant holds — whenever the tool-to-endpoint map
sends tool `t` to endpoint `e`, `t` is a member of `e`'s tool set.  The
converse direction can fail after a `register_tool` call that re-associates
an already-registered tool with a different endpoint, because the tool is
not removed from the old endpoint's set. -/
theorem c1_tool_map_forward_consistency (s : RegistryState) (h : Reachable s)
    (t e : String) (hmap : aget s.toolToEndpoint t = some e) : t ∈ etGet s e :=
  (reachable_inv h).2.1 t e hmap

theorem c1_tool_map_forward_consistency_witness : "t" ∈ etGet c1WState "e1" :=
  c1_tool_map_forward_consistency c1WState
    (Reachable.regTool "t" "e1" (Reachable.reg 0 demoInfo1 none Reachable.start))
    "t" "e1" (by decide)

/-- C4: in every reachable registry state every stats entry satisfies
`access_count == success_count + error_count`; `register_endpoint`
initializes the endpoint's stats with all three counters zero;
`record_endpoint_access` is a no-op for an unknown endpoint, and otherwise
increments `access_count` together with exactly one of `success_count` and
`error_count`. -/
theorem c4_stats_invariant (s : RegistryState) (h : Reachable s) :
    (∀ e st, aget s.endpointStats e = some st →
      st.accessCount = st.successCount + st.errorCount)
    ∧ (∀ (now : Int) (info : GraphQlEndpointInfo) (sch : Option SchemaInfo),
        aget (register_endpoint now info sch s).2.endpointStats info.name
          = some (freshStats now sch)
        ∧ (freshStats now sch).accessCount = 0
        ∧ (freshStats now sch).successCount = 0
        ∧ (freshStats now sch).errorCount = 0)
    ∧ (∀ (now : Int) (e : String) (b : Bool), aget s.endpoints e = none →
        record_endpoint_access now e b s = s)
    ∧ (∀ (now : Int) (e : String) (b : Bool) (st : EndpointStats),
        aget s.endpointStats e = some st →
        aget (record_endpoint_access now e b s).endpointStats e
            = some (bumpStats now b st)
        ∧ (bumpStats now b st).accessCount = st.accessCount + 1
        ∧ (b = true → (bumpStats now b st).successCount = st.successCount + 1
            ∧ (bumpStats now b st).errorCount = st.errorCount)
        ∧ (b = false → (bumpStats now b st).errorCount = st.errorCount + 1
            ∧ (bumpStats now b st).successCount = st.successCount)) := by
  refine ⟨(reachable_inv h).1, ?_, ?_, ?_⟩
  · intro now info sch
    rw [register_endpoint_state]
    refine ⟨?_, rfl, rfl, rfl⟩
    show aget (aset s.endpointStats info.name (freshStats now sch)) info.name = _
    rw [aget_aset, if_pos rfl]
  · intro now e b hnone
    have hkeys := (reachable_inv h).2.2.1 e
    rw [hnone] at hkeys
    have hstats : aget s.endpointStats e = none := by
      cases hst : aget s.endpointStats e with
      | none => rfl
      | some st => rw [hst] at hkeys; simp at hkeys
    unfold record_endpoint_access
    rw [hstats]
  · intro now e b st hst
    unfold record_endpoint_access
    rw [hst]
    refine ⟨?_, rfl, ?_, ?_⟩
    · show aget (aset s.endpointStats e (bumpStats now b st)) e = _
      rw [aget_aset, if_pos rfl]
    · intro hb
      subst hb
      exact ⟨rfl, rfl⟩
    · intro hb
      subst hb
      exact ⟨rfl, rfl⟩

theorem c4_stats_invariant_witness :
    c4Stats.accessCount = c4Stats.successCount + c4Stats.errorCount :=
  (c4_stats_invariant c4Reg
      (Reachable.record 9 "api" false
        (Reachable.record 5 "api" true
          (Reachable.reg 0 apiInfo none Reachable.start)))).1
    "api" c4Stats (by decide)

/-- The staleness sweep's intended semantics, proved of its loop body
`cleanup_stale_endpoints`: in every reachable state the body removes
exactly the endpoints whose age — now minus `last_accessed`, or now minus
`registered_at` when never accessed — strictly exceeds
`max_age_hours * 3600` seconds, returns the number removed (the endpoint
table shrinks by exactly the returned count), and cascades removal of the
tool mappings of every stale endpoint.  The method as written only reaches
a return without deadlock when no endpoint is stale — see
`cleanup_stale_endpoints_locked` and `cleanup_locked_diverges_of_stale`. -/
theorem cleanup_sweep_body_spec (s : RegistryState) (h : Reachable s)
    (now maxAgeHours : Int) :
    (∀ n, aget (cleanup_stale_endpoints now maxAgeHours s).2.endpoints n
        = if staleName now maxAgeHours s n = true then none
          else aget s.endpoints n)
    ∧ s.endpoints.length
        = (cleanup_stale_endpoints now maxAgeHours s).2.endpoints.length
            + (cleanup_stale_endpoints now maxAgeHours s).1
    ∧ (∀ t e, aget s.toolToEndpoint t = some e →
        staleName now maxAgeHours s e = true →
        aget (cleanup_stale_endpoints now maxAgeHours s).2.toolToEndpoint t
          = none) := by
  have hInv := reachable_inv h
  exact ⟨cleanup_endpoints_char now maxAgeHours hInv,
    cleanup_count now maxAgeHours hInv,
    fun t e hm hs => cleanup_kills_stale_mappings now maxAgeHours hInv t e hm hs⟩

/-- As soon as any endpoint is stale, the sweep method never returns: the
stale list is non-empty, and the first `unregister_endpoint` it awaits
blocks forever on the lock the sweep already holds. -/
theorem cleanup_locked_diverges_of_stale (now m : Int) (s : RegistryState)
    (hnd : (akeys s.endpointStats).Nodup) (n : String)
    (h : staleName now m s n = true) :
    cleanup_stale_endpoints_locked now m s = none := by
  have hmem : n ∈ (s.endpointStats.filter (fun p => staleStats now m p.2)).map
      Prod.fst := (mem_stale_list_iff now m s hnd n).2 h
  unfold cleanup_stale_endpoints_locked
  cases hl : (s.endpointStats.filter (fun p => staleStats now m p.2)).map
      Prod.fst with
  | nil => rw [hl] at hmem; simp at hmem
  | cons x xs => rfl

/-- C5 (code bug): at the claim's own scenario — endpoint `api` registered
at time 0, never accessed, sweep called at time 7200 s with
`max_age_hours = 1` — the endpoint is stale, and the method as written
never returns: it holds `self._lock` (line 270) while the
`unregister_endpoint` it awaits (line 286) re-acquires the same
non-reentrant `asyncio.Lock` (line 100), so the first removal blocks
forever (`cleanup_stale_endpoints_locked` yields `none`) and the endpoint
is never removed.  The sweep's body — the evident intent, matching the
claim — would remove the endpoint and return 1, and a second call on the
resulting state, having no stale endpoint left, does return 0 with the
state unchanged. -/
theorem c5_cleanup_stale_deadlock :
    staleName 7200 1 c5Reg "api" = true
    ∧ cleanup_stale_endpoints_locked 7200 1 c5Reg = none
    ∧ (cleanup_stale_endpoints 7200 1 c5Reg).1 = 1
    ∧ aget (cleanup_stale_endpoints 7200 1 c5Reg).2.endpoints "api" = none
    ∧ cleanup_stale_endpoints_locked 7200 1
        (cleanup_stale_endpoints 7200 1 c5Reg).2
      = some (0, (cleanup_stale_endpoints 7200 1 c5Reg).2) :=
  ⟨by decide, by decide, by decide, by decide, by decide⟩

/-- C6: a batch operation whose endpoint name is not registered produces a
failed result with error `"Endpoint not found: <name>"`, leaves the
registry (and hence all endpoint statistics) unchanged, and never invokes
the gateway (the third component of the returned triple is `false`). -/
theorem c6_unknown_endpoint (now : Int) (reg : RegistryState) (gw : GwBehavior)
    (op : Operation) (i : Nat)
    (h : aget reg.endpoints (op.endpoint.getD "") = none) :
    execute_single_operation now reg gw op i =
      .ok ({ name := opNameOf op i
             success := false
             error := some ("Endpoint not found: " ++ op.endpoint.getD "")
             index := i
             endpoint := op.endpoint.getD ""
             query := some (op.query.getD "")
             «variables» := some (op.variables.getD []) }, reg, false) := by
  simp only [execute_single_operation]
  rw [h]

theorem c6_unknown_endpoint_witness :
    execute_single_operation 0 RegistryState.empty (GwBehavior.returns none [])
        { endpoint := some "ghost" } 0
      = .ok ({ name := "operation_0"
               success := false
               error := some "Endpoint not found: ghost"
               index := 0
               endpoint := "ghost"
               query := some ""
               «variables» := some [] }, RegistryState.empty, false) := by
  rw [c6_unknown_endpoint 0 RegistryState.empty (GwBehavior.returns none [])
    { endpoint := some "ghost" } 0 (by decide)]
  rfl

/-- C9: re-registering an already-registered endpoint name overwrites the
endpoint record, resets the endpoint's stats block to fresh zero counters
(tool count included) with an empty `schema_version` when no schema is
supplied, but leaves the schema cache untouched when the `schema_info`
argument is omitted, so `get_endpoint_schema` still returns the previously
cached schema. -/
theorem c9_reregistration_frame (s : RegistryState) (now : Int)
    (info old : GraphQlEndpointInfo)
    (h : aget s.endpoints info.name = some old) :
    aget (register_endpoint now info none s).2.endpoints info.name = some info
    ∧ aget (register_endpoint now info none s).2.endpointStats info.name
        = some (freshStats now none)
    ∧ (freshStats now none).accessCount = 0
    ∧ (freshStats now none).successCount = 0
    ∧ (freshStats now none).errorCount = 0
    ∧ (freshStats now none).toolCount = 0
    ∧ (freshStats now none).schemaVersion = ""
    ∧ (∀ n, get_endpoint_schema (register_endpoint now info none s).2 n
        = get_endpoint_schema s n) := by
  rw [register_endpoint_state]
  refine ⟨?_, ?_, rfl, rfl, rfl, rfl, rfl, fun n => rfl⟩
  · show aget (aset s.endpoints info.name info) info.name = some info
    rw [aget_aset, if_pos rfl]
  · show aget (aset s.endpointStats info.name (freshStats now none)) info.name = _
    rw [aget_aset, if_pos rfl]

theorem c9_reregistration_frame_witness :
    aget (register_endpoint 3 apiInfo none
        (register_endpoint 0 apiInfo (some { version := "v1" })
          RegistryState.empty).2).2.endpointStats "api"
      = some (freshStats 3 none)
    ∧ get_endpoint_schema (register_endpoint 3 apiInfo none
          (register_endpoint 0 apiInfo (some { version := "v1" })
            RegistryState.empty).2).2 "api"
        = some { version := "v1" } := by
  have hmain := c9_reregistration_frame
    (register_endpoint 0 apiInfo (some { version := "v1" }) RegistryState.empty).2
    3 apiInfo apiInfo (by decide)
  refine ⟨hmain.2.1, ?_⟩
  rw [hmain.2.2.2.2.2.2.2 "api"]
  decide

theorem getD_map_range {α : Type} (n j : Nat) (f : Nat → α) (d : α)
    (h : j < n) : ((List.range n).map f).getD j d = f j := by
  rw [List.getD_eq_getElem?_getD, List.getElem?_map, List.getElem?_range h]
  rfl

/-- C2: in sequential mode with `continue_on_error = false`, when operation
`k` is the first failing operation the response carries exactly the results
of operations `0..k` in input order (so `k + 1` results, the last one
failed), the summary's `total_operations` still equals the original input
length and `failed_operations` equals the number of results minus
`successful_operations`, and the final registry state is the one produced
by the first `k + 1` operations alone — later operations are never
attempted. -/
theorem c2_sequential_early_stop (now : Int) (reg : RegistryState)
    (gw : Nat → GwBehavior) (ops : List Operation) (k : Nat)
    (hk : k < ops.length)
    (hpre : ∀ j, j < k →
      (singleResult now reg (gw j) (ops.getD j default) j).success = true)
    (hfail : (singleResult now reg (gw k) (ops.getD k default) k).success = false) :
    (execute_batch_operations_async now reg gw ops "sequential" false none).1.results
        = (List.range (k + 1)).map
            (fun j => singleResult now reg (gw j) (ops.getD j default) j)
    ∧ (execute_batch_operations_async now reg gw ops "sequential" false
        none).1.results.length = k + 1
    ∧ ((execute_batch_operations_async now reg gw ops "sequential" false
        none).1.results.getD k default).success = false
    ∧ (execute_batch_operations_async now reg gw ops "sequential" false
        none).1.summary.totalOperations = ops.length
    ∧ (execute_batch_operations_async now reg gw ops "sequential" false
          none).1.summary.failedOperations
        = (execute_batch_operations_async now reg gw ops "sequential" false
              none).1.results.length
            - (execute_batch_operations_async now reg gw ops "sequential" false
                none).1.summary.successfulOperations
    ∧ (execute_batch_operations_async now reg gw ops "sequential" false none).2
        = (runSequential now gw false reg 0 (ops.take (k + 1))).2 := by
  have hpre0 : ∀ j, j < k →
      (singleResult now reg (gw (0 + j)) (ops.getD j default) (0 + j)).success
        = true := by
    intro j hj
    simpa [Nat.zero_add] using hpre j hj
  have hfail0 : (singleResult now reg (gw (0 + k)) (ops.getD k default)
      (0 + k)).success = false := by
    simpa [Nat.zero_add] using hfail
  have hrun := runSequential_first_failure now gw ops reg 0 k hk hpre0 hfail0
  have hres : (execute_batch_operations_async now reg gw ops "sequential" false
      none).1.results
      = (List.range (k + 1)).map
          (fun j => singleResult now reg (gw j) (ops.getD j default) j) := by
    show (runSequential now gw false reg 0 ops).1 = _
    rw [hrun]
    refine List.map_congr_left ?_
    intro j _
    simp [Nat.zero_add]
  refine ⟨hres, ?_, ?_, rfl, rfl, ?_⟩
  · rw [hres]
    simp
  · rw [hres, getD_map_range _ _ _ _ (Nat.lt_succ_self k)]
    exact hfail
  · show (runSequential now gw false reg 0 ops).2 = _
    rw [hrun]

def c2Gw : Nat → GwBehavior := fun i =>
  if i = 1 then GwBehavior.returns none [{ message := "boom" }]
  else GwBehavior.returns (some "d") []

def c2Op : Operation := { endpoint := some "api" }

theorem c2_sequential_early_stop_witness :
    (execute_batch_operations_async 0 c5Reg c2Gw [c2Op, c2Op, c2Op]
        "sequential" false none).1.results.length = 2
    ∧ (execute_batch_operations_async 0 c5Reg c2Gw [c2Op, c2Op, c2Op]
        "sequential" false none).1.summary.totalOperations = 3 := by
  have hmain := c2_sequential_early_stop 0 c5Reg c2Gw [c2Op, c2Op, c2Op] 1
    (by decide)
    (by
      intro j hj
      have hj0 : j = 0 := by omega
      subst hj0
      decide)
    (by decide)
  exact ⟨hmain.2.1, hmain.2.2.2.1⟩

/-- C3 (counterexample): a failing operation is not always represented in
the result list.  With an internal fault caught at the outer `except`
(lines 141-147), the response's result list is empty even though the
batch's single operation was executed and failed (its per-operation result
has `success = false`), so that failure appears nowhere in the list. -/
theorem c3_outer_fault_counterexample :
    (singleResult 0 RegistryState.empty (GwBehavior.returns none [])
        { endpoint := some "ghost" } 0).success = false
    ∧ (execute_batch_operations_async 0 RegistryState.empty
        (fun _ => GwBehavior.returns none []) [{ endpoint := some "ghost" }]
        "sequential" true (some "summary construction failed")).1.results
      = [] :=
  ⟨by decide, rfl⟩

/-- C3 (amended): `execute_batch_operations_async` always returns a
`BatchExecutionResponse` (it is total over every gateway behavior,
including escaped faults and an outer fault), and every result it reports
with `success = false` carries a populated `error` message, whatever the
failure reason (unknown endpoint, gateway exception, GraphQL errors, or a
fault escaping the per-operation handler).  When no fault is caught at the
outer boundary, entry `j` of the result list is exactly the result of the
operation at input position `j`, and the list covers every operation in
parallel mode and whenever `continue_on_error` is true — so on those paths
every failing operation is represented as a failed result with a populated
error.  When the outer boundary catches a fault, failed operations are not
represented: the result list is empty (see the counterexample and C10). -/
theorem c3_batch_failures_represented (now : Int) (reg : RegistryState)
    (gw : Nat → GwBehavior) (ops : List Operation) (mode : String)
    (coe : Bool) :
    (∀ (fault : Option String) (r : BatchOperationResult),
        r ∈ (execute_batch_operations_async now reg gw ops mode coe
            fault).1.results →
        r.success = false → r.error.isSome)
    ∧ (∀ j, j < (execute_batch_operations_async now reg gw ops mode coe
          none).1.results.length →
        (execute_batch_operations_async now reg gw ops mode coe
            none).1.results.getD j default
          = singleResult now reg (gw j) (ops.getD j default) j)
    ∧ (ExecutionMode.fromString mode = ExecutionMode.parallel →
        (execute_batch_operations_async now reg gw ops mode coe
            none).1.results.length = ops.length)
    ∧ (coe = true →
        (execute_batch_operations_async now reg gw ops mode coe
            none).1.results.length = ops.length) := by
  refine ⟨?_, ?_, ?_, ?_⟩
  · intro fault r hr hfail
    simp only [execute_batch_operations_async] at hr
    cases fault with
    | some msg => simp at hr
    | none =>
      cases hm : ExecutionMode.fromString mode with
      | parallel =>
        rw [hm] at hr
        simp only at hr
        exact runParallel_failure_error now gw ops reg 0 r hr hfail
      | sequential =>
        rw [hm] at hr
        simp only at hr
        exact runSequential_failure_error now gw coe ops reg 0 r hr hfail
  · intro j hj
    simp only [execute_batch_operations_async] at hj ⊢
    cases hm : ExecutionMode.fromString mode with
    | parallel =>
      rw [hm] at hj
      have hj' : j < ops.length := by
        rw [← runParallel_length now gw ops reg 0]
        exact hj
      have hres := runParallel_getD now gw ops reg 0 j hj'
      rw [Nat.zero_add] at hres
      exact hres
    | sequential =>
      rw [hm] at hj
      have hres := runSequential_getD now gw coe ops reg 0 j hj
      rw [Nat.zero_add] at hres
      exact hres
  · intro hm
    simp only [execute_batch_operations_async, hm]
    exact runParallel_length now gw ops reg 0
  · intro hc
    subst hc
    simp only [execute_batch_operations_async]
    cases hm : ExecutionMode.fromString mode with
    | parallel => exact runParallel_length now gw ops reg 0
    | sequential => exact runSequential_length_of_continue now gw ops reg 0

def c3Result : BatchOperationResult :=
  { name := "operation_0"
    success := false
    error := some "Endpoint not found: ghost"
    index := 0
    endpoint := "ghost"
    query := some ""
    «variables» := some [] }

theorem c3_batch_failures_represented_witness :
    c3Result.error.isSome
    ∧ (execute_batch_operations_async 0 RegistryState.empty
        (fun _ => GwBehavior.returns none []) [{ endpoint := some "ghost" }]
        "parallel" true none).1.results.length = 1 := by
  constructor
  · exact (c3_batch_failures_represented 0 RegistryState.empty
      (fun _ => GwBehavior.returns none []) [{ endpoint := some "ghost" }]
      "sequential" true).1 none c3Result (by decide) (by decide)
  · exact (c3_batch_failures_represented 0 RegistryState.empty
      (fun _ => GwBehavior.returns none []) [{ endpoint := some "ghost" }]
      "parallel" true).2.2.1 rfl

/-- C7: in both execution modes (and for any mode string), the `i`-th
entry of the returned result list carries `index = i`, the operation's
position in the original input list. -/
theorem c7_result_index_stability (now : Int) (reg : RegistryState)
    (gw : Nat → GwBehavior) (ops : List Operation) (mode : String) (coe : Bool)
    (j : Nat)
    (hj : j < (execute_batch_operations_async now reg gw ops mode coe
        none).1.results.length) :
    ((execute_batch_operations_async now reg gw ops mode coe
        none).1.results.getD j default).index = j := by
  simp only [execute_batch_operations_async] at hj ⊢
  cases hm : ExecutionMode.fromString mode with
  | parallel =>
    rw [hm] at hj
    have hidx := runParallel_index now gw ops reg 0 j hj
    rw [Nat.zero_add] at hidx
    exact hidx
  | sequential =>
    rw [hm] at hj
    have hidx := runSequential_index now gw coe ops reg 0 j hj
    rw [Nat.zero_add] at hidx
    exact hidx

theorem c7_result_index_stability_witness :
    ((execute_batch_operations_async 0 c5Reg c2Gw [c2Op, c2Op, c2Op]
        "parallel" true none).1.results.getD 1 default).index = 1 :=
  c7_result_index_stability 0 c5Reg c2Gw [c2Op, c2Op, c2Op] "parallel" true 1
    (by decide)

/-- C8: every `execution_mode` string other than `"sequential"` and
`"parallel"` makes `execute_batch_operations_async` behave exactly as
sequential mode — the whole response and final registry state coincide
with the sequential call, no error is reported, and the summary records
sequential mode. -/
theorem c8_unrecognized_mode_sequential (now : Int) (reg : RegistryState)
    (gw : Nat → GwBehavior) (ops : List Operation) (coe : Bool)
    (fault : Option String) (mode : String)
    (h₁ : mode ≠ "sequential") (h₂ : mode ≠ "parallel") :
    execute_batch_operations_async now reg gw ops mode coe fault
        = execute_batch_operations_async now reg gw ops "sequential" coe fault
    ∧ (execute_batch_operations_async now reg gw ops mode coe
        fault).1.summary.executionMode = ExecutionMode.sequential := by
  have hm : ExecutionMode.fromString mode = ExecutionMode.sequential := by
    simp [ExecutionMode.fromString, h₂]
  have hm' : ExecutionMode.fromString "sequential" = ExecutionMode.sequential :=
    rfl
  constructor
  · simp only [execute_batch_operations_async, hm, hm']
  · simp only [execute_batch_operations_async, hm]
    cases fault <;> rfl

theorem c8_unrecognized_mode_sequential_witness :
    execute_batch_operations_async 0 c5Reg c2Gw [c2Op] "weird" true none
        = execute_batch_operations_async 0 c5Reg c2Gw [c2Op] "sequential" true
            none
    ∧ (execute_batch_operations_async 0 c5Reg c2Gw [c2Op] "weird" true
        none).1.summary.executionMode = ExecutionMode.sequential :=
  c8_unrecognized_mode_sequential 0 c5Reg c2Gw [c2Op] true none "weird"
    (by decide) (by decide)

/-- C10: when an internal fault is caught at the outermost boundary of
`execute_batch_operations_async`, the response has an empty result list,
the fault message as the sole entry of `errors`, and a default
`BatchSummary` whose `total_operations`, `successful_operations` and
`failed_operations` are all zero — for every input operation list,
including non-empty ones. -/
theorem c10_outer_fault_response (now : Int) (reg : RegistryState)
    (gw : Nat → GwBehavior) (ops : List Operation) (mode : String) (coe : Bool)
    (msg : String) :
    (execute_batch_operations_async now reg gw ops mode coe (some msg)).1
        = { results := [], summary := {}, errors := [msg] }
    ∧ (execute_batch_operations_async now reg gw ops mode coe
        (some msg)).1.results = []
    ∧ (execute_batch_operations_async now reg gw ops mode coe
        (some msg)).1.errors = [msg]
    ∧ (execute_batch_operations_async now reg gw ops mode coe
        (some msg)).1.summary.totalOperations = 0
    ∧ (execute_batch_operations_async now reg gw ops mode coe
        (some msg)).1.summary.successfulOperations = 0
    ∧ (execute_batch_operations_async now reg gw ops mode coe
        (some msg)).1.summary.failedOperations = 0 :=
  ⟨rfl, rfl, rfl, rfl, rfl, rfl⟩
end GraphQLMcp
